import Mathlib

/-!
Shallow embedding of the NLP-to-SQL gateway core
(`backend/app/core/query_generator.py` and `backend/app/api/agent.py`).

Strings are modelled by Lean `String` (a wrapper of `List Char`); Python's
ASCII-relevant `str.lower`, `str.strip`, `str.split`, substring tests and
dict(insertion-order) semantics are embedded by the executable helpers
below.  Database I/O is abstracted: the live schema catalog is a
`List (String × List String)` of (database path, its table list), the file
system is a `String → Bool` predicate, and the sqlite driver is a function
returning either an error message or (column names, rows).  A Python
exception escaping a function is modelled by `Option.none`.
-/

/-! ### Character classes (Python `\w`, `\s`, `\d` over ASCII, `str.lower`) -/

def isWordCh (c : Char) : Bool :=
  ('a' ≤ c && c ≤ 'z') || ('A' ≤ c && c ≤ 'Z') || ('0' ≤ c && c ≤ '9') || c = '_'

def isSpaceCh (c : Char) : Bool :=
  c = ' ' || c = '\t' || c = '\n' || c = '\r' || c = '\x0b' || c = '\x0c'

def isDigitCh (c : Char) : Bool :=
  '0' ≤ c && c ≤ '9'

def lowerChar (c : Char) : Char :=
  if c = 'A' then 'a' else if c = 'B' then 'b' else if c = 'C' then 'c' else
  if c = 'D' then 'd' else if c = 'E' then 'e' else if c = 'F' then 'f' else
  if c = 'G' then 'g' else if c = 'H' then 'h' else if c = 'I' then 'i' else
  if c = 'J' then 'j' else if c = 'K' then 'k' else if c = 'L' then 'l' else
  if c = 'M' then 'm' else if c = 'N' then 'n' else if c = 'O' then 'o' else
  if c = 'P' then 'p' else if c = 'Q' then 'q' else if c = 'R' then 'r' else
  if c = 'S' then 's' else if c = 'T' then 't' else if c = 'U' then 'u' else
  if c = 'V' then 'v' else if c = 'W' then 'w' else if c = 'X' then 'x' else
  if c = 'Y' then 'y' else if c = 'Z' then 'z' else c

def upperChar (c : Char) : Char :=
  if c = 'a' then 'A' else if c = 'b' then 'B' else if c = 'c' then 'C' else
  if c = 'd' then 'D' else if c = 'e' then 'E' else if c = 'f' then 'F' else
  if c = 'g' then 'G' else if c = 'h' then 'H' else if c = 'i' then 'I' else
  if c = 'j' then 'J' else if c = 'k' then 'K' else if c = 'l' then 'L' else
  if c = 'm' then 'M' else if c = 'n' then 'N' else if c = 'o' then 'O' else
  if c = 'p' then 'P' else if c = 'q' then 'Q' else if c = 'r' then 'R' else
  if c = 's' then 'S' else if c = 't' then 'T' else if c = 'u' then 'U' else
  if c = 'v' then 'V' else if c = 'w' then 'W' else if c = 'x' then 'X' else
  if c = 'y' then 'Y' else if c = 'z' then 'Z' else c

/-! ### List-of-char primitives: substring test, split, join, strip -/

/-- Bool test that `pat` is an initial segment of `l`. -/
def startsWithCh : List Char → List Char → Bool
  | [], _ => true
  | _ :: _, [] => false
  | p :: ps, c :: cs => p = c && startsWithCh ps cs

/-- Python's `needle in hay`: contiguous-substring test. -/
def listSub (needle : List Char) : List Char → Bool
  | [] => startsWithCh needle []
  | c :: cs => startsWithCh needle (c :: cs) || listSub needle cs

/-- Python's `s.split(sep)` for a one-character separator (keeps empties). -/
def splitCh (sep : Char) : List Char → List (List Char)
  | [] => [[]]
  | c :: cs =>
    if c = sep then [] :: splitCh sep cs
    else
      match splitCh sep cs with
      | [] => [[c]]
      | g :: gs => (c :: g) :: gs

/-- Python's `sep.join(parts)` for a one-character separator. -/
def joinCh (sep : Char) : List (List Char) → List Char
  | [] => []
  | [l] => l
  | l :: ls => l ++ sep :: joinCh sep ls

/-- Python's `str.strip()` on the character list. -/
def stripCh (l : List Char) : List Char :=
  ((l.dropWhile isSpaceCh).reverse.dropWhile isSpaceCh).reverse

/-- Consume the literal `pat` from the front of `l`, returning the rest. -/
def dropLit : List Char → List Char → Option (List Char)
  | [], l => some l
  | _ :: _, [] => none
  | p :: ps, c :: cs => if c = p then dropLit ps cs else none

/-- Case-insensitive variant of `dropLit` (`pat` given in lower case). -/
def dropLitCI : List Char → List Char → Option (List Char)
  | [], l => some l
  | _ :: _, [] => none
  | p :: ps, c :: cs => if lowerChar c = p then dropLitCI ps cs else none

/-- The `re.sub(pat, "", s)` engine: repeatedly apply the matcher `m`, which on a
match returns the remainder after the matched span (always consuming at least
one character); non-matching characters are copied.  Fuel is the list length. -/
def subAllAux (m : List Char → Option (List Char)) : Nat → List Char → List Char
  | 0, l => l
  | _ + 1, [] => []
  | f + 1, c :: cs =>
    match m (c :: cs) with
    | some rest => subAllAux m f rest
    | none => c :: subAllAux m f cs

def subAll (m : List Char → Option (List Char)) (l : List Char) : List Char :=
  subAllAux m l.length l

/-! ### String wrappers -/

def lowerStr (s : String) : String := ⟨s.data.map lowerChar⟩

def pyStrip (s : String) : String := ⟨stripCh s.data⟩

/-- Python `sub in hay`. -/
def strContains (hay sub : String) : Bool := listSub sub.data hay.data

def splitLines (s : String) : List String := (splitCh '\n' s.data).map String.mk

def splitTabs (s : String) : List String := (splitCh '\t' s.data).map String.mk

/-- Embeds `os.path.basename` (Windows flavour: splits on both separators). -/
def basename (p : String) : String :=
  ⟨(p.data.reverse.takeWhile (fun c => !(c = '/') && !(c = '\\'))).reverse⟩

/-! ### The table-name scanner: `re.findall(r'from\s+(\w+)|join\s+(\w+)', q)` -/

def fromKw : List Char := ['f', 'r', 'o', 'm']

def joinKw : List Char := ['j', 'o', 'i', 'n']

/-- One alternative of the pattern at the current position: the literal
keyword, then `\s+` (greedy), then the captured `\w+` (greedy). -/
def tryKw (kw l : List Char) : Option (List Char × List Char) :=
  match dropLit kw l with
  | none => none
  | some r1 =>
    if r1.takeWhile isSpaceCh = [] then none
    else
      let r2 := r1.dropWhile isSpaceCh
      let tok := r2.takeWhile isWordCh
      if tok = [] then none else some (tok, r2.dropWhile isWordCh)

/-- Leftmost, non-overlapping scan; the `from` alternative is tried first at
each position, as in the Python alternation.  Fuel is the list length. -/
def scanAux : Nat → List Char → List (List Char)
  | 0, _ => []
  | _ + 1, [] => []
  | f + 1, c :: cs =>
    match tryKw fromKw (c :: cs) with
    | some (tok, rest) => tok :: scanAux f rest
    | none =>
      match tryKw joinKw (c :: cs) with
      | some (tok, rest) => tok :: scanAux f rest
      | none => scanAux f cs

/-- The `tables_in_query` list of `__determine_database__` and
`get_tables_by_database` (the argument is already lower-cased there). -/
def extractTables (s : String) : List String :=
  (scanAux s.data.length s.data).map String.mk

/-! ### Table index and router (`QuerySQLitePlugin.__determine_database__`) -/

/-- Python dict assignment `d[k] = v`: overwrite in place, else append. -/
def dictInsert (d : List (String × String)) (k v : String) :
    List (String × String) :=
  if d.any (fun p => p.1 = k) then
    d.map (fun p => if p.1 = k then (k, v) else p)
  else d ++ [(k, v)]

/-- The `table_to_db_mapping` dict: for each database in enumeration order, each of its
tables (lower-cased) is mapped to the database path; later databases win on
name collision, first-insertion order is kept (Python dict semantics). -/
def buildTableIndex (catalog : List (String × List String)) :
    List (String × String) :=
  catalog.foldl
    (fun m e => e.2.foldl (fun m t => dictInsert m (lowerStr t) e.1) m) []

def lookupAssoc : List (String × String) → String → Option String
  | [], _ => none
  | p :: ps, k => if p.1 = k then some p.2 else lookupAssoc ps k

def joinKeywords : List String := ["join", "left join", "inner join", "cross join"]

def crossDbSentinel : String := "CROSS_DATABASE_JOIN_ERROR"

/-- Lines 152-173 of `__determine_database__`: a join keyword is present and
the extracted tables resolve (through the index) to more than one distinct
database. -/
def crossDbFlag (mapping : List (String × String)) (queryLower : String) : Bool :=
  if joinKeywords.any (fun k => strContains queryLower k) then
    decide (1 < (((extractTables queryLower).filterMap (lookupAssoc mapping)).dedup).length)
  else false

/-- Embeds `__determine_database__(sql_query)`: lower-case the query; if a join
keyword occurs and the extracted tables resolve to more than one database,
return the cross-database sentinel; otherwise return the database of the
first indexed table name occurring as a substring of the lowered query; else
default to the first enumerated database.  `none` models the
`Exception("No databases found in workspace")` raised when the catalog is
empty. -/
def determineDatabase (catalog : List (String × List String))
    (sqlQuery : String) : Option String :=
  let queryLower := lowerStr sqlQuery
  let mapping := buildTableIndex catalog
  if crossDbFlag mapping queryLower then some crossDbSentinel
  else
    match mapping.find? (fun p => strContains queryLower p.1) with
    | some p => some p.2
    | none => (catalog.map Prod.fst).head?

/-! ### Cross-database splitter (`get_tables_by_database`,
`generate_separate_queries_for_databases`) -/

/-- Python `result.setdefault(k, []).append(t)` on an insertion-ordered dict. -/
def groupInsert (d : List (String × List String)) (k t : String) :
    List (String × List String) :=
  if d.any (fun p => p.1 = k) then
    d.map (fun p => if p.1 = k then (p.1, p.2 ++ [t]) else p)
  else d ++ [(k, [t])]

/-- The loop body of `get_tables_by_database`: a table known to the index is
appended to its database's group, an unknown one is skipped. -/
def groupStep (mapping : List (String × String))
    (res : List (String × List String)) (t : String) :
    List (String × List String) :=
  match lookupAssoc mapping t with
  | some db => groupInsert res db t
  | none => res

/-- Embeds `get_tables_by_database(sql_query)`: group the (lower-cased) tables
extracted from the query by the database that contains them, in order of
first discovery. -/
def getTablesByDatabase (catalog : List (String × List String))
    (sqlQuery : String) : List (String × List String) :=
  let queryLower := lowerStr sqlQuery
  let mapping := buildTableIndex catalog
  (extractTables queryLower).foldl (groupStep mapping) []

def commonFields : List String :=
  ["CheckId", "Date", "Month", "Year", "DayPart", "RevenueCenter",
   "CompanyCode", "SiteCode"]

/-- The single-table statement emitted per table of a cross-database join. -/
def commonSelect (table : String) : String :=
  "SELECT " ++ String.intercalate ", " commonFields ++ " FROM " ++ table
    ++ " LIMIT 20"

/-- Embeds `generate_separate_queries_for_databases(original_query, user_question)`. -/
def generateSeparateQueries (catalog : List (String × List String))
    (originalQuery _userQuestion : String) : List String :=
  let tablesByDb := getTablesByDatabase catalog originalQuery
  if tablesByDb.length ≤ 1 then [originalQuery]
  else tablesByDb.foldl (fun acc e => acc ++ e.2.map commonSelect) []

/-! ### Executor (`QuerySQLitePlugin.query_sqlite`) -/

/-- Embeds `__clean_sql_query__`: drop markdown fences, then strip. -/
def cleanSqlQuery (s : String) : String :=
  ⟨stripCh (subAll (dropLit "```".data) (subAll (dropLit "```sql".data) s.data))⟩

/-- The guidance text returned for a flagged multi-database query. -/
def multiDbGuidance (tablesByDb : List (String × List String)) : String :=
  (tablesByDb.foldl
    (fun acc e =>
      acc ++ "\nDatabase: " ++ basename e.1 ++ "\nTables: "
        ++ String.intercalate ", " e.2 ++ "\n")
    "Multi-database query detected. Here are the tables by database:\n")
  ++ "\nPlease generate separate queries for each database using common fields for comparison."

/-- Embeds `query_sqlite(sql_query)`, with the file system and the sqlite driver
abstracted.  `driver db q` yields `.error msg` for a raised driver exception
(whose message the surrounding `except` turns into text) or `.ok (cols, rows)`
for a completed execution.  All paths return a plain string: the executor
never lets an exception escape. -/
def querySqlite (catalog : List (String × List String))
    (fileExists : String → Bool)
    (driver : String → String → Except String (List String × List (List String)))
    (sqlQuery : String) : String :=
  let query := cleanSqlQuery sqlQuery
  match determineDatabase catalog query with
  | none => "Error executing query: No databases found in workspace"
  | some dbPath =>
    if dbPath = crossDbSentinel then
      let tablesByDb := getTablesByDatabase catalog query
      if 1 < tablesByDb.length then multiDbGuidance tablesByDb
      else "Error: Cross-database JOIN detected. SQLite does not support joining tables from different databases. Please query tables from the same database or use separate queries."
    else if !fileExists dbPath then
      "Database file " ++ dbPath ++ " not found."
    else
      match driver dbPath query with
      | .error e => "Error executing query: " ++ e
      | .ok (colNames, rows) =>
        if rows.isEmpty then "No results found."
        else
          String.intercalate "\t" colNames ++ "\n"
            ++ String.intercalate "\n" (rows.map (String.intercalate "\t"))

/-! ### Batch extraction from the raw model response
(`run_agent_and_get_queries_and_results`, lines 469-498) -/

/-- Matcher for `re.sub(r'```sql\s*', '', s)`. -/
def mFenceSql (l : List Char) : Option (List Char) :=
  (dropLit "```sql".data l).map (List.dropWhile isSpaceCh)

/-- Matcher for `re.sub(r'```\s*', '', s)`. -/
def mFence (l : List Char) : Option (List Char) :=
  (dropLit "```".data l).map (List.dropWhile isSpaceCh)

/-- Matcher for `pre.*?\n` (no DOTALL: `.` stops at a newline, so the match
runs from the literal `pre` through the next newline inclusive). -/
def mToNewline (pre : List Char) (l : List Char) : Option (List Char) :=
  match dropLit pre l with
  | none => none
  | some r =>
    match r.dropWhile (fun c => !(c = '\n')) with
    | '\n' :: rest => some rest
    | _ => none

/-- Matcher for `Query \d+:.*?\n`. -/
def mQueryLbl (l : List Char) : Option (List Char) :=
  match dropLit "Query ".data l with
  | none => none
  | some r =>
    if r.takeWhile isDigitCh = [] then none
    else
      match r.dropWhile isDigitCh with
      | ':' :: r2 =>
        match r2.dropWhile (fun c => !(c = '\n')) with
        | '\n' :: rest => some rest
        | _ => none
      | _ => none

/-- The cleanup pipeline applied to the model's raw text: initial strip, then
the seven `re.sub` passes in source order. -/
def cleanupRaw (s : String) : String :=
  let r0 := stripCh s.data
  let r1 := subAll mFenceSql r0
  let r2 := subAll mFence r1
  let r3 := subAll (mToNewline "###".data) r2
  let r4 := subAll mQueryLbl r3
  let r5 := subAll (mToNewline "To compare".data) r4
  let r6 := subAll (mToNewline "I will generate".data) r5
  let r7 := subAll (mToNewline "These queries".data) r6
  ⟨r7⟩

/-- Matches `LIMIT\s+\d+` at the head of `l` (case-insensitive); returns the length
of the match. -/
def matchLimitLen (l : List Char) : Option Nat :=
  match dropLitCI ['l', 'i', 'm', 'i', 't'] l with
  | none => none
  | some r =>
    let sp := r.takeWhile isSpaceCh
    if sp = [] then none
    else
      let ds := (r.dropWhile isSpaceCh).takeWhile isDigitCh
      if ds = [] then none else some (5 + sp.length + ds.length)

/-- Lazy `.*?LIMIT\s+\d+` with DOTALL: the nearest position where `LIMIT`
completes, returning the distance from the start to the end of that match. -/
def findLimitEnd : Nat → List Char → Option Nat
  | 0, _ => none
  | f + 1, l =>
    match matchLimitLen l with
    | some k => some k
    | none =>
      match l with
      | [] => none
      | _ :: cs => (findLimitEnd f cs).map (· + 1)

/-- Embeds `re.findall(r'SELECT.*?LIMIT\s+\d+', s, IGNORECASE | DOTALL)`. -/
def findallAux : Nat → List Char → List (List Char)
  | 0, _ => []
  | _ + 1, [] => []
  | f + 1, c :: cs =>
    match dropLitCI ['s', 'e', 'l', 'e', 'c', 't'] (c :: cs) with
    | some r6 =>
      match findLimitEnd r6.length r6 with
      | some k =>
        (c :: cs).take (6 + k) :: findallAux f ((c :: cs).drop (6 + k))
      | none => findallAux f cs
    | none => findallAux f cs

def findallSelectLimit (s : String) : List String :=
  (findallAux s.data.length s.data).map String.mk

/-- The fallback: split on `;`, keep fragments that strip to non-empty text,
do not start with `--` (after strip and lower), and contain `SELECT`
case-insensitively; each kept fragment is stripped. -/
def fallbackSplit (r : String) : List String :=
  (((splitCh ';' r.data).map String.mk).filter
    (fun q =>
      (pyStrip q != "")
        && !startsWithCh ['-', '-'] (lowerStr (pyStrip q)).data
        && listSub "SELECT".data (q.data.map upperChar))).map pyStrip

/-- The batch of SQL statements the integration loop executes, produced from
the model's raw text response (lines 469-498 of `query_generator.py`). -/
def extractSqlStatements (response : String) : List String :=
  let rawSql := cleanupRaw response
  let ms := findallSelectLimit rawSql
  if ms.isEmpty then fallbackSplit rawSql
  else ms.map (fun m => pyStrip m ++ ";")

/-- The spec's description of the batch production, stated in its own words:
"splitting the model's raw text response on `;`, discarding blank fragments
and SQL-comment-only fragments" with "fragments that do not look like a
SELECT statement" silently dropped. -/
def specSplitOnSemicolons (raw : String) : List String :=
  (((splitCh ';' raw.data).map String.mk).filter
    (fun q =>
      (pyStrip q != "")
        && !startsWithCh ['-', '-'] (lowerStr (pyStrip q)).data
        && listSub "SELECT".data (q.data.map upperChar))).map pyStrip

/-! ### Integration loop body (lines 502-518) -/

/-- One iteration of the routing/execution loop: route the statement; on the
cross-database sentinel execute every splitter expansion in its place,
otherwise execute the statement itself.  `ex` is the executor
(`query_sqlite`) seen as the string it is sent.  `none` models the uncaught
exception of `__determine_database__` on an empty catalog. -/
def processStatement (catalog : List (String × List String))
    (ex : String → String) (question sql : String) :
    Option (List (String × String)) :=
  match determineDatabase catalog sql with
  | none => none
  | some dbPath =>
    if dbPath = crossDbSentinel then
      some ((generateSeparateQueries catalog sql question).map
        (fun q => (q, ex q)))
    else some [(sql, ex sql)]

/-! ### Result normalizer (`backend/app/api/agent.py`, lines 33-78) -/

/-- One entry of the `data` list the endpoint returns: either a structured
record (a Python dict in insertion order) or — one branch appends the raw
string itself — a bare string. -/
inductive DataItem
  | record (fields : List (String × String))
  | raw (s : String)
deriving DecidableEq

def crossDbMarker : String := "Cross-database JOIN detected"

def errorKeywords : List String := ["error", "no results found", "not found", "empty"]

/-- The record built for one data line:
`row[header.strip()] = values[i] if i < len(values) else ''`. -/
def buildRow (row : List (String × String)) :
    List String → List String → List (String × String)
  | [], _ => row
  | h :: hs, [] => buildRow (dictInsert row (pyStrip h) "") hs []
  | h :: hs, v :: vs => buildRow (dictInsert row (pyStrip h) v) hs vs

/-- The classification of one executor result string: the pair
(records or raw strings appended to `processed_data`,
strings appended to `error_messages`). -/
def processResult (result : String) : List DataItem × List String :=
  if strContains result crossDbMarker then ([], [result])
  else if strContains result "\t" then
    let lines := splitLines (pyStrip result)
    if 1 < lines.length then
      match lines with
      | [] => ([], [])
      | headerLine :: dataLines =>
        let headers := splitTabs headerLine
        (dataLines.map
          (fun line => DataItem.record (buildRow [] headers (splitTabs line))), [])
    else ([], [])
  else if strContains result "\n" then
    match splitLines (pyStrip result) with
    | [h, v] =>
      if (pyStrip h != "") && (pyStrip v != "") then
        ([DataItem.record [(pyStrip h, pyStrip v)]], [])
      else ([], [])
    | lines =>
      if 2 < lines.length then ([DataItem.record [("Result", pyStrip result)]], [])
      else ([DataItem.raw result], [])
  else
    if errorKeywords.any (fun k => strContains (lowerStr result) k) then
      ([], [result])
    else ([DataItem.record [("Result", result)]], [])

/-- The whole normalization loop over a list of executor results
(`processed_data.extend` / `error_messages.append` in input order). -/
def normalizeResults (results : List String) : List DataItem × List String :=
  results.foldl
    (fun acc r =>
      let p := processResult r
      (acc.1 ++ p.1, acc.2 ++ p.2))
    ([], [])

/-- The tab-delimited executor output built from header tokens and rows, as
`query_sqlite` formats it. -/
def tabInput (headers : List String) (rows : List (List String)) : String :=
  ⟨joinCh '\n' (joinCh '\t' (headers.map String.data)
      :: rows.map (fun r => joinCh '\t' (r.map String.data)))⟩

/-- A token that cannot disturb the tab/newline framing. -/
def tokenClean (t : String) : Prop := '\t' ∉ t.data ∧ '\n' ∉ t.data

instance (t : String) : Decidable (tokenClean t) := by
  unfold tokenClean; infer_instance

/-! ### Lemmas: substring test -/

theorem startsWithCh_iff : ∀ p l : List Char, startsWithCh p l = true ↔ ∃ s, l = p ++ s
  | [], l => by simp [startsWithCh]
  | p :: ps, [] => by simp [startsWithCh]
  | p :: ps, c :: cs => by
    simp only [startsWithCh, Bool.and_eq_true, decide_eq_true_eq]
    constructor
    · rintro ⟨rfl, h⟩
      obtain ⟨s, rfl⟩ := (startsWithCh_iff ps cs).1 h
      exact ⟨s, rfl⟩
    · rintro ⟨s, hs⟩
      rw [List.cons_append] at hs
      injection hs with h1 h2
      exact ⟨h1.symm, (startsWithCh_iff ps cs).2 ⟨s, h2⟩⟩

theorem listSub_iff : ∀ n h : List Char, listSub n h = true ↔ ∃ p s, h = p ++ n ++ s
  | n, [] => by
    simp only [listSub, startsWithCh_iff]
    constructor
    · rintro ⟨s, hs⟩
      exact ⟨[], s, by simpa using hs⟩
    · rintro ⟨p, s, hps⟩
      refine ⟨s, ?_⟩
      rcases List.append_eq_nil.1 hps.symm with ⟨h1, h2⟩
      rcases List.append_eq_nil.1 h1 with ⟨rfl, rfl⟩
      simpa using hps
  | n, c :: cs => by
    simp only [listSub, Bool.or_eq_true, startsWithCh_iff, listSub_iff n cs]
    constructor
    · rintro (⟨s, hs⟩ | ⟨p, s, hps⟩)
      · exact ⟨[], s, by simpa using hs⟩
      · exact ⟨c :: p, s, by simp [hps]⟩
    · rintro ⟨p, s, hps⟩
      match p, hps with
      | [], hps => exact Or.inl ⟨s, by simpa using hps⟩
      | c' :: p', hps => 
        rw [List.cons_append, List.cons_append] at hps
        injection hps with h1 h2
        exact Or.inr ⟨p', s, h2⟩

theorem listSub_single (c : Char) (l : List Char) : listSub [c] l = true ↔ c ∈ l := by
  rw [listSub_iff]
  constructor
  · rintro ⟨p, s, rfl⟩
    simp
  · intro h
    obtain ⟨p, s, rfl⟩ := List.append_of_mem h
    exact ⟨p, s, by simp⟩

theorem strContains_iff (hay sub : String) :
    strContains hay sub = true ↔ ∃ p s, hay.data = p ++ sub.data ++ s :=
  listSub_iff sub.data hay.data

/-! ### Lemmas: split and join -/

theorem splitCh_ne_nil (sep : Char) : ∀ l, splitCh sep l ≠ []
  | [] => by simp [splitCh]
  | c :: cs => by
    simp only [splitCh]
    split
    · simp
    · cases h : splitCh sep cs <;> simp

theorem splitCh_no_sep (sep : Char) : ∀ l : List Char, sep ∉ l → splitCh sep l = [l]
  | [], _ => rfl
  | c :: cs, h => by
    have hc : ¬(c = sep) := fun hc => h (hc ▸ List.mem_cons_self c cs)
    have ih := splitCh_no_sep sep cs (fun hm => h (List.mem_cons_of_mem c hm))
    simp only [splitCh, if_neg hc, ih]

theorem splitCh_sep_append (sep : Char) :
    ∀ a r : List Char, sep ∉ a → splitCh sep (a ++ sep :: r) = a :: splitCh sep r
  | [], r, _ => by simp [splitCh]
  | c :: cs, r, h => by
    have hc : ¬(c = sep) := fun hc => h (hc ▸ List.mem_cons_self c cs)
    have ih := splitCh_sep_append sep cs r (fun hm => h (List.mem_cons_of_mem c hm))
    simp only [List.cons_append, splitCh, if_neg hc, List.append_eq, ih]

theorem joinCh_cons (sep : Char) (l : List Char) :
    ∀ ls, ls ≠ [] → joinCh sep (l :: ls) = l ++ sep :: joinCh sep ls
  | [], h => absurd rfl h
  | x :: xs, _ => rfl

theorem splitCh_joinCh (sep : Char) :
    ∀ ls : List (List Char), ls ≠ [] → (∀ l ∈ ls, sep ∉ l) →
      splitCh sep (joinCh sep ls) = ls
  | [], h, _ => absurd rfl h
  | [l], _, hs => by
    simp only [joinCh]
    exact splitCh_no_sep sep l (hs l (by simp))
  | l :: l' :: ls, _, hs => by
    rw [joinCh_cons sep l (l' :: ls) (by simp),
      splitCh_sep_append sep l _ (hs l (by simp)),
      splitCh_joinCh sep (l' :: ls) (by simp) (fun x hx => hs x (List.mem_cons_of_mem l hx))]

theorem mem_joinCh (sep : Char) :
    ∀ ls (c : Char), c ∈ joinCh sep ls → c = sep ∨ ∃ l ∈ ls, c ∈ l
  | [], c, h => by simp [joinCh] at h
  | [l], c, h => Or.inr ⟨l, by simp, by simpa [joinCh] using h⟩
  | l :: l' :: ls, c, h => by
    rw [joinCh_cons sep l (l' :: ls) (by simp)] at h
    rcases List.mem_append.1 h with h | h
    · exact Or.inr ⟨l, by simp, h⟩
    · rcases List.mem_cons.1 h with rfl | h
      · exact Or.inl rfl
      · rcases mem_joinCh sep (l' :: ls) c h with h | ⟨x, hx, hcx⟩
        · exact Or.inl h
        · exact Or.inr ⟨x, List.mem_cons_of_mem l hx, hcx⟩

theorem sep_mem_joinCh (sep : Char) (a b : List Char) (ls : List (List Char)) :
    sep ∈ joinCh sep (a :: b :: ls) := by
  rw [joinCh_cons sep a (b :: ls) (by simp)]
  simp

theorem mem_joinCh_head (sep : Char) (c : Char) (l : List Char) (ls : List (List Char))
    (h : c ∈ l) : c ∈ joinCh sep (l :: ls) := by
  cases ls with
  | nil => simpa [joinCh] using h
  | cons x xs => rw [joinCh_cons sep l (x :: xs) (by simp)]; exact List.mem_append_left _ h

/-! ### Lemmas: takeWhile / dropWhile on appended lists -/

theorem takeWhile_append_all (p : Char → Bool) :
    ∀ t r : List Char, (∀ c ∈ t, p c = true) →
      (∀ c, r.head? = some c → p c = false) →
      (t ++ r).takeWhile p = t ∧ (t ++ r).dropWhile p = r
  | [], r, _, hr => by
    cases r with
    | nil => simp
    | cons c cs =>
      have := hr c rfl
      simp [List.takeWhile, List.dropWhile, this]
  | c :: cs, r, ht, hr => by
    have hc := ht c (by simp)
    have ih := takeWhile_append_all p cs r (fun x hx => ht x (by simp [hx])) hr
    simp only [List.cons_append, List.takeWhile_cons, List.dropWhile_cons, hc]
    simp [ih.1, ih.2]

/-! ### Lemmas: dict insertion and record building -/

theorem dictInsert_fresh (d : List (String × String)) (k v : String)
    (h : k ∉ d.map Prod.fst) : dictInsert d k v = d ++ [(k, v)] := by
  have : d.any (fun p => p.1 = k) = false := by
    simp only [List.any_eq_false, decide_eq_true_eq]
    intro p hp hpk
    exact h (List.mem_map.2 ⟨p, hp, hpk⟩)
  simp [dictInsert, this]

theorem dictInsert_key_mem (d : List (String × String)) (k v : String) :
    k ∈ (dictInsert d k v).map Prod.fst := by
  by_cases h : d.any (fun p => p.1 = k) = true
  · simp only [dictInsert, if_pos h]
    obtain ⟨p, hp, hpk⟩ := by simpa only [List.any_eq_true, decide_eq_true_eq] using h
    refine List.mem_map.2 ⟨(k, v), ?_, rfl⟩
    refine List.mem_map.2 ⟨p, hp, ?_⟩
    simp [hpk]
  · simp [dictInsert, h]

theorem dictInsert_keys_mono (d : List (String × String)) (k v k' : String)
    (h : k' ∈ d.map Prod.fst) : k' ∈ (dictInsert d k v).map Prod.fst := by
  obtain ⟨p, hp, hpk⟩ := List.mem_map.1 h
  by_cases hc : d.any (fun p => p.1 = k) = true
  · simp only [dictInsert, if_pos hc]
    by_cases hk : p.1 = k
    · refine List.mem_map.2 ⟨(k, v), List.mem_map.2 ⟨p, hp, by simp [hk]⟩, ?_⟩
      simp [← hpk, hk]
    · exact List.mem_map.2 ⟨p, List.mem_map.2 ⟨p, hp, by simp [hk]⟩, hpk⟩
  · simp only [dictInsert, if_neg hc]
    exact List.mem_map.2 ⟨p, List.mem_append_left _ hp, hpk⟩

theorem buildRow_keys_mono (k : String) :
    ∀ (hs vs : List String) (row : List (String × String)),
      k ∈ row.map Prod.fst → k ∈ (buildRow row hs vs).map Prod.fst
  | [], _, row, h => h
  | h0 :: hs, [], row, h =>
    buildRow_keys_mono k hs [] _ (dictInsert_keys_mono row (pyStrip h0) "" k h)
  | h0 :: hs, v :: vs, row, h =>
    buildRow_keys_mono k hs vs _ (dictInsert_keys_mono row (pyStrip h0) v k h)

theorem buildRow_key_mem :
    ∀ (hs vs : List String) (row : List (String × String)) (h0 : String),
      h0 ∈ hs → pyStrip h0 ∈ (buildRow row hs vs).map Prod.fst
  | [], _, _, _, hmem => by simp at hmem
  | h1 :: hs, [], row, h0, hmem => by
    rcases List.mem_cons.1 hmem with rfl | hmem
    · exact buildRow_keys_mono _ hs [] _ (dictInsert_key_mem row (pyStrip h0) "")
    · exact buildRow_key_mem hs [] _ h0 hmem
  | h1 :: hs, v :: vs, row, h0, hmem => by
    rcases List.mem_cons.1 hmem with rfl | hmem
    · exact buildRow_keys_mono _ hs vs _ (dictInsert_key_mem row (pyStrip h0) v)
    · exact buildRow_key_mem hs vs _ h0 hmem

theorem buildRow_zip :
    ∀ (hs vs : List String) (row : List (String × String)),
      (∀ h ∈ hs, pyStrip h ∉ row.map Prod.fst) →
      (hs.map pyStrip).Nodup →
      buildRow row hs vs =
        row ++ (hs.map pyStrip).zip (vs ++ List.replicate (hs.length - vs.length) "")
  | [], vs, row, _, _ => by simp [buildRow]
  | h0 :: hs, [], row, hfresh, hnodup => by
    have hf0 : pyStrip h0 ∉ row.map Prod.fst := hfresh h0 (by simp)
    have hnd : (hs.map pyStrip).Nodup := (List.nodup_cons.1 (by simpa using hnodup)).2
    have hhd : pyStrip h0 ∉ hs.map pyStrip := (List.nodup_cons.1 (by simpa using hnodup)).1
    rw [buildRow, dictInsert_fresh row _ _ hf0,
      buildRow_zip hs [] (row ++ [(pyStrip h0, "")])
        (fun h hh => by
          simp only [List.map_append, List.mem_append, List.map_cons]
          rintro (hc | hc)
          · exact hfresh h (by simp [hh]) hc
          · simp only [List.map_nil, List.mem_singleton] at hc
            exact hhd (hc ▸ List.mem_map.2 ⟨h, hh, rfl⟩))
        hnd]
    simp [List.zip_cons_cons, List.replicate_succ]
  | h0 :: hs, v :: vs, row, hfresh, hnodup => by
    have hf0 : pyStrip h0 ∉ row.map Prod.fst := hfresh h0 (by simp)
    have hnd : (hs.map pyStrip).Nodup := (List.nodup_cons.1 (by simpa using hnodup)).2
    have hhd : pyStrip h0 ∉ hs.map pyStrip := (List.nodup_cons.1 (by simpa using hnodup)).1
    rw [buildRow, dictInsert_fresh row _ _ hf0,
      buildRow_zip hs vs (row ++ [(pyStrip h0, v)])
        (fun h hh => by
          simp only [List.map_append, List.mem_append, List.map_cons]
          rintro (hc | hc)
          · exact hfresh h (by simp [hh]) hc
          · simp only [List.map_nil, List.mem_singleton] at hc
            exact hhd (hc ▸ List.mem_map.2 ⟨h, hh, rfl⟩))
        hnd]
    simp [List.zip_cons_cons]

/-! ### Lemmas: ASCII lowering -/

theorem lowerChar_idem (c : Char) : lowerChar (lowerChar c) = lowerChar c := by
  by_cases h1 : c = 'A'; · subst h1; decide
  by_cases h2 : c = 'B'; · subst h2; decide
  by_cases h3 : c = 'C'; · subst h3; decide
  by_cases h4 : c = 'D'; · subst h4; decide
  by_cases h5 : c = 'E'; · subst h5; decide
  by_cases h6 : c = 'F'; · subst h6; decide
  by_cases h7 : c = 'G'; · subst h7; decide
  by_cases h8 : c = 'H'; · subst h8; decide
  by_cases h9 : c = 'I'; · subst h9; decide
  by_cases h10 : c = 'J'; · subst h10; decide
  by_cases h11 : c = 'K'; · subst h11; decide
  by_cases h12 : c = 'L'; · subst h12; decide
  by_cases h13 : c = 'M'; · subst h13; decide
  by_cases h14 : c = 'N'; · subst h14; decide
  by_cases h15 : c = 'O'; · subst h15; decide
  by_cases h16 : c = 'P'; · subst h16; decide
  by_cases h17 : c = 'Q'; · subst h17; decide
  by_cases h18 : c = 'R'; · subst h18; decide
  by_cases h19 : c = 'S'; · subst h19; decide
  by_cases h20 : c = 'T'; · subst h20; decide
  by_cases h21 : c = 'U'; · subst h21; decide
  by_cases h22 : c = 'V'; · subst h22; decide
  by_cases h23 : c = 'W'; · subst h23; decide
  by_cases h24 : c = 'X'; · subst h24; decide
  by_cases h25 : c = 'Y'; · subst h25; decide
  by_cases h26 : c = 'Z'; · subst h26; decide
  have hc : lowerChar c = c := by
    simp only [lowerChar, if_neg h1, if_neg h2, if_neg h3, if_neg h4, if_neg h5,
      if_neg h6, if_neg h7, if_neg h8, if_neg h9, if_neg h10, if_neg h11,
      if_neg h12, if_neg h13, if_neg h14, if_neg h15, if_neg h16, if_neg h17,
      if_neg h18, if_neg h19, if_neg h20, if_neg h21, if_neg h22, if_neg h23,
      if_neg h24, if_neg h25, if_neg h26]
  rw [hc]
  exact hc

theorem map_lowerChar_fix (l : List Char) :
    ∀ tok : List Char, (∀ c ∈ tok, c ∈ l.map lowerChar) → tok.map lowerChar = tok
  | [], _ => rfl
  | c :: cs, h => by
    obtain ⟨c₀, _, hc₀⟩ := List.mem_map.1 (h c (by simp))
    have hfix : lowerChar c = c := by rw [← hc₀]; exact lowerChar_idem c₀
    simp only [List.map_cons, hfix, List.cons.injEq, true_and]
    exact map_lowerChar_fix l cs (fun x hx => h x (by simp [hx]))

/-! ### Lemmas: small list facts -/

theorem one_lt_length_of_two_mem {α : Type} {l : List α} {a b : α}
    (ha : a ∈ l) (hb : b ∈ l) (hne : a ≠ b) : 1 < l.length := by
  match l with
  | [] => simp at ha
  | [x] =>
    rw [List.mem_singleton] at ha hb
    exact absurd (ha.trans hb.symm) hne
  | x :: y :: t => simp only [List.length_cons]; omega

theorem length_le_one_of_nodup_all_eq {α : Type} {l : List α} {D : α}
    (hn : l.Nodup) (h : ∀ x ∈ l, x = D) : l.length ≤ 1 := by
  match l with
  | [] => simp
  | [x] => simp
  | x :: y :: t =>
    exfalso
    have hx := h x (by simp)
    have hy := h y (by simp)
    have := (List.nodup_cons.1 hn).1
    exact this (by simp [hx, hy])

theorem foldl_append_join {α β : Type} (f : α → List β) :
    ∀ (l : List α) (init : List β),
      l.foldl (fun acc e => acc ++ f e) init = init ++ (l.map f).join
  | [], init => by simp
  | x :: xs, init => by
    rw [List.foldl_cons, foldl_append_join f xs (init ++ f x)]
    simp

/-! ### Lemmas: the table-name scanner -/

theorem isWordCh_not_space (c : Char) (h : isWordCh c = true) : isSpaceCh c = false := by
  cases hs : isSpaceCh c
  · rfl
  · exfalso
    have h6 : c = ' ' ∨ c = '\t' ∨ c = '\n' ∨ c = '\r' ∨ c = '\x0b' ∨ c = '\x0c' := by
      simpa [isSpaceCh, Bool.or_eq_true, decide_eq_true_eq, or_assoc] using hs
    rcases h6 with rfl | rfl | rfl | rfl | rfl | rfl <;> exact absurd h (by decide)

theorem scanAux_nil : ∀ f, scanAux f [] = []
  | 0 => rfl
  | _ + 1 => rfl

theorem dropLit_eq : ∀ pat l r : List Char, dropLit pat l = some r → l = pat ++ r
  | [], l, r, h => by simpa [dropLit] using (by simpa [dropLit] using h : l = r) ▸ rfl
  | p :: ps, [], r, h => by simp [dropLit] at h
  | p :: ps, c :: cs, r, h => by
    by_cases hc : c = p
    · subst hc
      simp only [dropLit, if_pos rfl] at h
      rw [List.cons_append, ← dropLit_eq ps cs r h]
    · simp [dropLit, hc] at h

theorem tryKw_from_none (c : Char) (cs : List Char) (h : ¬(c = 'f')) :
    tryKw fromKw (c :: cs) = none := by
  simp [tryKw, fromKw, dropLit, h]

theorem tryKw_join_none (c : Char) (cs : List Char) (h : ¬(c = 'j')) :
    tryKw joinKw (c :: cs) = none := by
  simp [tryKw, joinKw, dropLit, h]

theorem tryKw_parts (kw l : List Char) (tok rest : List Char) :
    tryKw kw l = some (tok, rest) →
    (∃ a, l = a ++ (tok ++ rest)) ∧ tok ≠ [] ∧ ∀ c ∈ tok, isWordCh c = true := by
  unfold tryKw
  cases hd : dropLit kw l with
  | none => intro h; exact absurd h (by simp)
  | some r1 =>
    intro h
    dsimp only at h
    by_cases hsp : r1.takeWhile isSpaceCh = []
    · rw [if_pos hsp] at h; exact absurd h (by simp)
    · rw [if_neg hsp] at h
      by_cases htk : (r1.dropWhile isSpaceCh).takeWhile isWordCh = []
      · rw [if_pos htk] at h; exact absurd h (by simp)
      · rw [if_neg htk] at h
        injection h with h
        injection h with h1 h2
        refine ⟨⟨kw ++ r1.takeWhile isSpaceCh, ?_⟩, ?_, ?_⟩
        · have hr2 : r1.dropWhile isSpaceCh = tok ++ rest := by
            conv_lhs =>
              rw [← List.takeWhile_append_dropWhile (p := isWordCh)
                (l := r1.dropWhile isSpaceCh)]
            rw [h1, h2]
          have hr1 : r1 = r1.takeWhile isSpaceCh ++ (tok ++ rest) := by
            conv_lhs =>
              rw [← List.takeWhile_append_dropWhile (p := isSpaceCh) (l := r1)]
            rw [hr2]
          rw [dropLit_eq kw l r1 hd, List.append_assoc]
          conv_lhs => rw [hr1]
        · rw [← h1]; exact htk
        · intro c hc
          rw [← h1] at hc
          exact List.mem_takeWhile_imp hc

theorem scanAux_infix :
    ∀ (f : Nat) (l tok : List Char), tok ∈ scanAux f l → ∃ p s, l = p ++ tok ++ s
  | 0, l, tok, h => by simp [scanAux] at h
  | _ + 1, [], tok, h => by simp [scanAux] at h
  | f + 1, c :: cs, tok, h => by
    rw [scanAux] at h
    cases hf : tryKw fromKw (c :: cs) with
    | some pr =>
      obtain ⟨t0, rest⟩ := pr
      rw [hf] at h
      obtain ⟨⟨a, ha⟩, -, -⟩ := tryKw_parts fromKw (c :: cs) t0 rest hf
      rcases List.mem_cons.1 h with rfl | h
      · exact ⟨a, rest, by rw [ha, List.append_assoc]⟩
      · obtain ⟨p, s, hps⟩ := scanAux_infix f rest tok h
        exact ⟨a ++ t0 ++ p, s, by rw [ha, hps]; simp⟩
    | none =>
      rw [hf] at h
      cases hj : tryKw joinKw (c :: cs) with
      | some pr =>
        obtain ⟨t0, rest⟩ := pr
        rw [hj] at h
        obtain ⟨⟨a, ha⟩, -, -⟩ := tryKw_parts joinKw (c :: cs) t0 rest hj
        rcases List.mem_cons.1 h with rfl | h
        · exact ⟨a, rest, by rw [ha, List.append_assoc]⟩
        · obtain ⟨p, s, hps⟩ := scanAux_infix f rest tok h
          exact ⟨a ++ t0 ++ p, s, by rw [ha, hps]; simp⟩
      | none =>
        rw [hj] at h
        obtain ⟨p, s, hps⟩ := scanAux_infix f cs tok h
        exact ⟨c :: p, s, by rw [hps]; simp⟩

theorem scanAux_props :
    ∀ (f : Nat) (l tok : List Char), tok ∈ scanAux f l →
      tok ≠ [] ∧ ∀ c ∈ tok, isWordCh c = true
  | 0, l, tok, h => by simp [scanAux] at h
  | _ + 1, [], tok, h => by simp [scanAux] at h
  | f + 1, c :: cs, tok, h => by
    rw [scanAux] at h
    cases hf : tryKw fromKw (c :: cs) with
    | some pr =>
      obtain ⟨t0, rest⟩ := pr
      rw [hf] at h
      obtain ⟨-, hne, hw⟩ := tryKw_parts fromKw (c :: cs) t0 rest hf
      rcases List.mem_cons.1 h with rfl | h
      · exact ⟨hne, hw⟩
      · exact scanAux_props f rest tok h
    | none =>
      rw [hf] at h
      cases hj : tryKw joinKw (c :: cs) with
      | some pr =>
        obtain ⟨t0, rest⟩ := pr
        rw [hj] at h
        obtain ⟨-, hne, hw⟩ := tryKw_parts joinKw (c :: cs) t0 rest hj
        rcases List.mem_cons.1 h with rfl | h
        · exact ⟨hne, hw⟩
        · exact scanAux_props f rest tok h
      | none =>
        rw [hj] at h
        exact scanAux_props f cs tok h

theorem scanAux_skip (a : List Char) (ha : ∀ c ∈ a, ¬(c = 'f') ∧ ¬(c = 'j')) :
    ∀ (f : Nat) (r : List Char), scanAux (f + a.length) (a ++ r) = scanAux f r := by
  induction a with
  | nil => intro f r; simp
  | cons c a' ih =>
    intro f r
    have hc := ha c (by simp)
    have ih' := ih (fun x hx => ha x (by simp [hx])) (f + a'.length) r
    show scanAux ((f + a'.length) + 1) (c :: (a' ++ r)) = scanAux f r
    rw [scanAux, tryKw_from_none c _ hc.1, tryKw_join_none c _ hc.2]
    exact ih (fun x hx => ha x (by simp [hx])) f r

theorem scanAux_from (f : Nat) (tok r : List Char) (ht : tok ≠ [])
    (hw : ∀ c ∈ tok, isWordCh c = true)
    (hr : ∀ c, r.head? = some c → isWordCh c = false) :
    scanAux (f + 1) ('f' :: 'r' :: 'o' :: 'm' :: ' ' :: (tok ++ r)) =
      tok :: scanAux f r := by
  obtain ⟨c0, tok', rfl⟩ := List.exists_cons_of_ne_nil ht
  have hc0 : isSpaceCh c0 = false := isWordCh_not_space c0 (hw c0 (by simp))
  have hTake := takeWhile_append_all isWordCh (c0 :: tok') r hw hr
  rw [List.cons_append] at hTake
  simp only [List.cons_append]
  have hkw : tryKw fromKw ('f' :: 'r' :: 'o' :: 'm' :: ' ' :: c0 :: (tok' ++ r)) =
      some (c0 :: tok', r) := by
    have hdl : dropLit fromKw ('f' :: 'r' :: 'o' :: 'm' :: ' ' :: c0 :: (tok' ++ r)) =
        some (' ' :: c0 :: (tok' ++ r)) := rfl
    unfold tryKw
    rw [hdl]
    dsimp only
    have h1 : List.takeWhile isSpaceCh (' ' :: c0 :: (tok' ++ r)) =
        ' ' :: List.takeWhile isSpaceCh (c0 :: (tok' ++ r)) :=
      List.takeWhile_cons_of_pos (by decide)
    have h2 : List.dropWhile isSpaceCh (' ' :: c0 :: (tok' ++ r)) =
        List.dropWhile isSpaceCh (c0 :: (tok' ++ r)) :=
      List.dropWhile_cons_of_pos (by decide)
    have h3 : List.dropWhile isSpaceCh (c0 :: (tok' ++ r)) = c0 :: (tok' ++ r) :=
      List.dropWhile_cons_of_neg (by simp [hc0])
    rw [h1, h2, h3, if_neg (by simp), hTake.1, hTake.2, if_neg ht]
  rw [scanAux, hkw]

theorem extract_commonSelect (tok : List Char) (ht : tok ≠ [])
    (hw : ∀ c ∈ tok, isWordCh c = true) (hfix : tok.map lowerChar = tok) :
    extractTables (lowerStr (commonSelect (String.mk tok))) = [String.mk tok] := by
  have hI : String.intercalate ", " commonFields =
      "CheckId, Date, Month, Year, DayPart, RevenueCenter, CompanyCode, SiteCode" := by
    decide
  have hcs : (commonSelect (String.mk tok)).data =
      "SELECT CheckId, Date, Month, Year, DayPart, RevenueCenter, CompanyCode, SiteCode FROM ".data
        ++ tok ++ " LIMIT 20".data := by
    simp [commonSelect, hI, String.data_append]
  have hPmap :
      ("SELECT CheckId, Date, Month, Year, DayPart, RevenueCenter, CompanyCode, SiteCode FROM ".data.map lowerChar) =
      "select checkid, date, month, year, daypart, revenuecenter, companycode, sitecode ".data
        ++ ['f', 'r', 'o', 'm', ' '] := by decide
  have hSmap : (" LIMIT 20".data.map lowerChar) = " limit 20".data := by decide
  have hdata : (lowerStr (commonSelect (String.mk tok))).data =
      "select checkid, date, month, year, daypart, revenuecenter, companycode, sitecode ".data
        ++ (['f', 'r', 'o', 'm', ' '] ++ (tok ++ " limit 20".data)) := by
    show (commonSelect (String.mk tok)).data.map lowerChar = _
    rw [hcs]
    simp only [List.map_append, hPmap, hSmap, hfix]
    simp [List.append_assoc]
  have hPchars :
      ∀ c ∈ "select checkid, date, month, year, daypart, revenuecenter, companycode, sitecode ".data,
        ¬(c = 'f') ∧ ¬(c = 'j') := by decide
  have hSchars : ∀ c ∈ " limit 20".data, ¬(c = 'f') ∧ ¬(c = 'j') := by decide
  have hlen : ("select checkid, date, month, year, daypart, revenuecenter, companycode, sitecode ".data
        ++ (['f', 'r', 'o', 'm', ' '] ++ (tok ++ " limit 20".data))).length =
      (14 + tok.length) +
        "select checkid, date, month, year, daypart, revenuecenter, companycode, sitecode ".data.length := by
    simp only [List.length_append]
    have h9 : " limit 20".data.length = 9 := by decide
    simp only [h9, List.length_cons, List.length_nil]
    omega
  have hsufHead : ∀ c : Char, (" limit 20".data).head? = some c → isWordCh c = false := by
    intro c hc
    have : (" limit 20".data).head? = some ' ' := rfl
    rw [this] at hc
    injection hc with hc
    rw [← hc]
    decide
  unfold extractTables
  rw [hdata, hlen,
    scanAux_skip _ hPchars (14 + tok.length) (['f', 'r', 'o', 'm', ' '] ++ (tok ++ " limit 20".data)),
    show (['f', 'r', 'o', 'm', ' '] ++ (tok ++ " limit 20".data)) =
      'f' :: 'r' :: 'o' :: 'm' :: ' ' :: (tok ++ " limit 20".data) from rfl,
    show 14 + tok.length = (13 + tok.length) + 1 from by omega,
    scanAux_from (13 + tok.length) tok " limit 20".data ht hw hsufHead]
  have hskip2 := scanAux_skip " limit 20".data hSchars (4 + tok.length) []
  simp only [List.append_nil] at hskip2
  have h9 : " limit 20".data.length = 9 := by decide
  rw [h9] at hskip2
  rw [show 13 + tok.length = 4 + tok.length + 9 from by omega, hskip2, scanAux_nil]
  rfl

/-! ### Lemmas: index lookup, extraction membership, grouping -/

theorem lookupAssoc_mem :
    ∀ (m : List (String × String)) (k v : String),
      lookupAssoc m k = some v → (k, v) ∈ m
  | [], k, v, h => by simp [lookupAssoc] at h
  | p :: ps, k, v, h => by
    by_cases hk : p.1 = k
    · rw [lookupAssoc, if_pos hk] at h
      injection h with h
      have hkv : (k, v) = p := by rw [← hk, ← h]
      rw [hkv]
      exact List.mem_cons_self p ps
    · rw [lookupAssoc, if_neg hk] at h
      exact List.mem_cons_of_mem p (lookupAssoc_mem ps k v h)

theorem extractTables_strContains (s t : String) (h : t ∈ extractTables s) :
    strContains s t = true := by
  obtain ⟨td, htd, rfl⟩ := List.mem_map.1 h
  obtain ⟨p, q, hpq⟩ := scanAux_infix s.data.length s.data td htd
  exact (listSub_iff td s.data).2 ⟨p, q, hpq⟩

theorem extractTables_props (s t : String) (h : t ∈ extractTables s) :
    t.data ≠ [] ∧ ∀ c ∈ t.data, isWordCh c = true := by
  obtain ⟨td, htd, rfl⟩ := List.mem_map.1 h
  exact scanAux_props s.data.length s.data td htd

theorem extractTables_chars_mem (s t : String) (h : t ∈ extractTables s) :
    ∀ c ∈ t.data, c ∈ s.data := by
  obtain ⟨td, htd, rfl⟩ := List.mem_map.1 h
  obtain ⟨p, q, hpq⟩ := scanAux_infix s.data.length s.data td htd
  intro c hc
  rw [hpq]
  simp [hc]

theorem extractTables_lower_fix (s t : String) (h : t ∈ extractTables (lowerStr s)) :
    t.data.map lowerChar = t.data := by
  refine map_lowerChar_fix s.data t.data (fun c hc => ?_)
  exact extractTables_chars_mem (lowerStr s) t h c hc

theorem groupInsert_keys_cases (d : List (String × List String)) (k t : String) :
    (groupInsert d k t).map Prod.fst = d.map Prod.fst ∧ k ∈ d.map Prod.fst ∨
      (groupInsert d k t).map Prod.fst = d.map Prod.fst ++ [k] := by
  by_cases hc : d.any (fun p => p.1 = k) = true
  · left
    constructor
    · simp only [groupInsert, if_pos hc, List.map_map]
      refine List.map_congr_left (fun p _ => ?_)
      by_cases hp : p.1 = k <;> simp [hp]
    · obtain ⟨p, hp, hpk⟩ := by simpa only [List.any_eq_true, decide_eq_true_eq] using hc
      exact List.mem_map.2 ⟨p, hp, hpk⟩
  · right
    simp [groupInsert, hc]

theorem groupInsert_key_mem (d : List (String × List String)) (k t : String) :
    k ∈ (groupInsert d k t).map Prod.fst := by
  rcases groupInsert_keys_cases d k t with ⟨he, hk⟩ | he <;> rw [he]
  · exact hk
  · simp

theorem groupInsert_keys_mono (d : List (String × List String)) (k t k' : String)
    (h : k' ∈ d.map Prod.fst) : k' ∈ (groupInsert d k t).map Prod.fst := by
  rcases groupInsert_keys_cases d k t with ⟨he, -⟩ | he <;> rw [he]
  · exact h
  · exact List.mem_append_left _ h

theorem groupInsert_tables (d : List (String × List String)) (k t : String) :
    ∀ g ∈ groupInsert d k t, ∀ x ∈ g.2, (∃ g' ∈ d, x ∈ g'.2) ∨ x = t := by
  intro g hg x hx
  by_cases hc : d.any (fun p => p.1 = k) = true
  · rw [groupInsert, if_pos hc] at hg
    obtain ⟨p, hp, hpg⟩ := List.mem_map.1 hg
    by_cases hpk : p.1 = k
    · rw [if_pos hpk] at hpg
      rw [← hpg] at hx
      rcases List.mem_append.1 hx with hx | hx
      · exact Or.inl ⟨p, hp, hx⟩
      · exact Or.inr (List.mem_singleton.1 hx)
    · rw [if_neg hpk] at hpg
      exact Or.inl ⟨p, hp, hpg ▸ hx⟩
  · rw [groupInsert, if_neg hc] at hg
    rcases List.mem_append.1 hg with hg | hg
    · exact Or.inl ⟨g, hg, hx⟩
    · rw [List.mem_singleton.1 hg] at hx
      exact Or.inr (by simpa using hx)

theorem groupStep_keys_mono (m : List (String × String)) (acc : List (String × List String))
    (t k : String) (h : k ∈ acc.map Prod.fst) : k ∈ (groupStep m acc t).map Prod.fst := by
  unfold groupStep
  cases lookupAssoc m t with
  | none => exact h
  | some db => exact groupInsert_keys_mono acc db t k h

theorem groupFold_keys_mono (m : List (String × String)) :
    ∀ (ts : List String) (acc : List (String × List String)) (k : String),
      k ∈ acc.map Prod.fst → k ∈ (ts.foldl (groupStep m) acc).map Prod.fst
  | [], acc, k, h => h
  | t :: ts, acc, k, h =>
    groupFold_keys_mono m ts (groupStep m acc t) k (groupStep_keys_mono m acc t k h)

theorem groupFold_key_mem (m : List (String × String)) :
    ∀ (ts : List String) (acc : List (String × List String)) (t0 A : String),
      t0 ∈ ts → lookupAssoc m t0 = some A →
      A ∈ (ts.foldl (groupStep m) acc).map Prod.fst
  | [], _, _, _, hmem, _ => by simp at hmem
  | t :: ts, acc, t0, A, hmem, hl => by
    rcases List.mem_cons.1 hmem with rfl | hmem
    · refine groupFold_keys_mono m ts (groupStep m acc t0) A ?_
      unfold groupStep
      rw [hl]
      exact groupInsert_key_mem acc A t0
    · exact groupFold_key_mem m ts (groupStep m acc t) t0 A hmem hl

theorem groupFold_tables (m : List (String × String)) :
    ∀ (ts : List String) (acc : List (String × List String)),
      ∀ g ∈ ts.foldl (groupStep m) acc, ∀ x ∈ g.2,
        (∃ g' ∈ acc, x ∈ g'.2) ∨ x ∈ ts
  | [], acc, g, hg, x, hx => Or.inl ⟨g, hg, hx⟩
  | t :: ts, acc, g, hg, x, hx => by
    rcases groupFold_tables m ts (groupStep m acc t) g hg x hx with ⟨g', hg', hx'⟩ | hmem
    · unfold groupStep at hg'
      cases hl : lookupAssoc m t with
      | none => rw [hl] at hg'; exact Or.inl ⟨g', hg', hx'⟩
      | some db =>
        rw [hl] at hg'
        rcases groupInsert_tables acc db t g' hg' x hx' with h | rfl
        · exact Or.inl h
        · exact Or.inr (by simp)
    · exact Or.inr (List.mem_cons_of_mem t hmem)

/-! ### Lemmas: the cross-database flag -/

theorem crossDbFlag_true (mapping : List (String × String)) (ql : String)
    (t1 t2 A B : String) (hjoin : strContains ql "join" = true)
    (h1 : t1 ∈ extractTables ql) (h2 : t2 ∈ extractTables ql)
    (hA : lookupAssoc mapping t1 = some A) (hB : lookupAssoc mapping t2 = some B)
    (hAB : A ≠ B) : crossDbFlag mapping ql = true := by
  unfold crossDbFlag
  rw [if_pos (by simp [joinKeywords, hjoin])]
  have hAm : A ∈ ((extractTables ql).filterMap (lookupAssoc mapping)).dedup :=
    List.mem_dedup.2 (List.mem_filterMap.2 ⟨t1, h1, hA⟩)
  have hBm : B ∈ ((extractTables ql).filterMap (lookupAssoc mapping)).dedup :=
    List.mem_dedup.2 (List.mem_filterMap.2 ⟨t2, h2, hB⟩)
  simpa using one_lt_length_of_two_mem hAm hBm hAB

theorem crossDbFlag_false_of_unique (mapping : List (String × String)) (ql : String)
    (h : ∀ t A, t ∈ extractTables ql → lookupAssoc mapping t = some A →
      ∀ t' A', t' ∈ extractTables ql → lookupAssoc mapping t' = some A' → A = A') :
    crossDbFlag mapping ql = false := by
  unfold crossDbFlag
  split
  · rw [decide_eq_false_iff_not]
    intro hlt
    rcases hd : ((extractTables ql).filterMap (lookupAssoc mapping)).dedup with
      _ | ⟨a, _ | ⟨b, l⟩⟩
    · rw [hd] at hlt; simp at hlt
    · rw [hd] at hlt; simp at hlt
    · have hnd := List.nodup_dedup ((extractTables ql).filterMap (lookupAssoc mapping))
      rw [hd] at hnd
      have hab : a ≠ b := by
        intro hab
        exact (List.nodup_cons.1 hnd).1 (by simp [hab])
      have ham : a ∈ (extractTables ql).filterMap (lookupAssoc mapping) :=
        List.mem_dedup.1 (hd ▸ by simp)
      have hbm : b ∈ (extractTables ql).filterMap (lookupAssoc mapping) :=
        List.mem_dedup.1 (hd ▸ by simp)
      obtain ⟨ta, hta, hla⟩ := List.mem_filterMap.1 ham
      obtain ⟨tb, htb, hlb⟩ := List.mem_filterMap.1 hbm
      exact hab (h ta a hta hla tb b htb hlb)
  · rfl

/-! ### Claim theorems: the router -/

/-- C2 (amended): provided at least one database is enumerated, the router
never raises: when no table name known to the index occurs as a substring of
the lower-cased statement, it returns the first enumerated database as the
default target rather than failing. -/
theorem claim2_router_default_fallback (d : String × List String)
    (cat : List (String × List String)) (sql : String)
    (h : ∀ p ∈ buildTableIndex (d :: cat), strContains (lowerStr sql) p.1 = false) :
    determineDatabase (d :: cat) sql = some d.1 := by
  have hflag : crossDbFlag (buildTableIndex (d :: cat)) (lowerStr sql) = false := by
    apply crossDbFlag_false_of_unique
    intro t A ht hA t' A' ht' hA'
    exfalso
    have hc := h (t, A) (lookupAssoc_mem _ t A hA)
    rw [extractTables_strContains (lowerStr sql) t ht] at hc
    simp at hc
  have hfind : (buildTableIndex (d :: cat)).find?
      (fun p => strContains (lowerStr sql) p.1) = none :=
    List.find?_eq_none.2 (fun p hp => by simp [h p hp])
  unfold determineDatabase
  dsimp only
  rw [hflag]
  simp only [Bool.false_eq_true, if_false, hfind]
  simp

/-- C2 counterexample: with an empty workspace (no databases enumerated) the
router raises `Exception("No databases found in workspace")` — modelled by
`none` — instead of returning a default database, so "never raises" is false
as universally stated. -/
theorem claim2_counterexample : determineDatabase [] "SELECT 1" = none := by decide

theorem claim2_witness :
    (∀ p ∈ buildTableIndex [("A.db", ["t1"])],
      strContains (lowerStr "SELECT 1") p.1 = false) ∧
    determineDatabase [("A.db", ["t1"])] "SELECT 1" = some "A.db" :=
  ⟨by decide, claim2_router_default_fallback ("A.db", ["t1"]) [] "SELECT 1" (by decide)⟩

/-- C9: when every table name known to the index that occurs (as a substring
of the lower-cased statement) maps to the single database `D`, and at least
one occurs, the router resolves the statement to `D` — independently of how
often a table name repeats and of the presence of a join keyword. -/
theorem claim9_single_database_resolution (cat : List (String × List String))
    (sql D : String)
    (hone : ∀ p ∈ buildTableIndex cat,
      strContains (lowerStr sql) p.1 = true → p.2 = D)
    (hocc : ∃ p ∈ buildTableIndex cat, strContains (lowerStr sql) p.1 = true) :
    determineDatabase cat sql = some D := by
  have hflag : crossDbFlag (buildTableIndex cat) (lowerStr sql) = false := by
    apply crossDbFlag_false_of_unique
    intro t A ht hA t' A' ht' hA'
    have hAD : A = D :=
      hone (t, A) (lookupAssoc_mem _ t A hA) (extractTables_strContains _ t ht)
    have hAD' : A' = D :=
      hone (t', A') (lookupAssoc_mem _ t' A' hA') (extractTables_strContains _ t' ht')
    rw [hAD, hAD']
  obtain ⟨p0, hp0, hc0⟩ := hocc
  obtain ⟨q, hq⟩ : ∃ q, (buildTableIndex cat).find?
      (fun p => strContains (lowerStr sql) p.1) = some q := by
    cases hf : (buildTableIndex cat).find? (fun p => strContains (lowerStr sql) p.1) with
    | none => exact absurd hc0 (by simpa using List.find?_eq_none.1 hf p0 hp0)
    | some q => exact ⟨q, rfl⟩
  have hqmem := List.mem_of_find?_eq_some hq
  have hqp : strContains (lowerStr sql) q.1 = true := by
    simpa using List.find?_some hq
  unfold determineDatabase
  dsimp only
  rw [hflag]
  simp only [Bool.false_eq_true, if_false, hq]
  simp [hone q hqmem hqp]

theorem claim9_witness :
    (∀ p ∈ buildTableIndex [("A.db", ["t1"])],
      strContains (lowerStr "SELECT * FROM t1 WHERE t1.x = t1.y") p.1 = true → p.2 = "A.db") ∧
    (∃ p ∈ buildTableIndex [("A.db", ["t1"])],
      strContains (lowerStr "SELECT * FROM t1 WHERE t1.x = t1.y") p.1 = true) ∧
    determineDatabase [("A.db", ["t1"])] "SELECT * FROM t1 WHERE t1.x = t1.y" = some "A.db" :=
  ⟨by decide, by decide,
    claim9_single_database_resolution [("A.db", ["t1"])]
      "SELECT * FROM t1 WHERE t1.x = t1.y" "A.db" (by decide) (by decide)⟩

/-- C1: a statement that contains a join keyword and whose extracted table
references resolve through the index to two different databases is classified
as a cross-database join (the router returns the sentinel, not a database
target); the integration loop never sends the statement verbatim to the
executor — it executes exactly the splitter's expansions in its place. -/
theorem claim1_cross_database_join (cat : List (String × List String))
    (ex : String → String) (question sql t1 t2 A B : String)
    (hjoin : strContains (lowerStr sql) "join" = true)
    (h1 : t1 ∈ extractTables (lowerStr sql)) (h2 : t2 ∈ extractTables (lowerStr sql))
    (hA : lookupAssoc (buildTableIndex cat) t1 = some A)
    (hB : lookupAssoc (buildTableIndex cat) t2 = some B) (hAB : A ≠ B) :
    determineDatabase cat sql = some crossDbSentinel ∧
    processStatement cat ex question sql =
      some ((generateSeparateQueries cat sql question).map (fun q => (q, ex q))) ∧
    sql ∉ generateSeparateQueries cat sql question := by
  have hflag := crossDbFlag_true (buildTableIndex cat) (lowerStr sql) t1 t2 A B
    hjoin h1 h2 hA hB hAB
  have hdet : determineDatabase cat sql = some crossDbSentinel := by
    unfold determineDatabase
    dsimp only
    rw [hflag]
    simp
  refine ⟨hdet, ?_, ?_⟩
  · unfold processStatement
    rw [hdet]
    simp
  · intro hmem
    have hunf : getTablesByDatabase cat sql =
        (extractTables (lowerStr sql)).foldl (groupStep (buildTableIndex cat)) [] := rfl
    have hAk := groupFold_key_mem (buildTableIndex cat)
      (extractTables (lowerStr sql)) [] t1 A h1 hA
    have hBk := groupFold_key_mem (buildTableIndex cat)
      (extractTables (lowerStr sql)) [] t2 B h2 hB
    have hgroups : 1 < (getTablesByDatabase cat sql).length := by
      rw [hunf]
      have hlt := one_lt_length_of_two_mem hAk hBk hAB
      simpa using hlt
    have hgen : generateSeparateQueries cat sql question =
        ((getTablesByDatabase cat sql).map (fun e => e.2.map commonSelect)).join := by
      unfold generateSeparateQueries
      dsimp only
      rw [if_neg (by omega), foldl_append_join]
      simp
    rw [hgen] at hmem
    obtain ⟨l, hl, hmem2⟩ := List.mem_join.1 hmem
    obtain ⟨g, hg, rfl⟩ := List.mem_map.1 hl
    obtain ⟨t, htg, hsql⟩ := List.mem_map.1 hmem2
    have htex : t ∈ extractTables (lowerStr sql) := by
      rw [hunf] at hg
      rcases groupFold_tables (buildTableIndex cat)
          (extractTables (lowerStr sql)) [] g hg t htg with ⟨g', hg', -⟩ | hmem3
      · simp at hg'
      · exact hmem3
    obtain ⟨htne, htw⟩ := extractTables_props (lowerStr sql) t htex
    have htfix := extractTables_lower_fix sql t htex
    have hext : extractTables (lowerStr sql) = [t] := by
      have hec := extract_commonSelect t.data htne htw htfix
      rw [show String.mk t.data = t from rfl, hsql] at hec
      exact hec
    rw [hext, List.mem_singleton] at h1 h2
    rw [h1] at hA
    rw [h2] at hB
    rw [hA] at hB
    injection hB with hB
    exact hAB hB

theorem claim1_witness :
    strContains (lowerStr "SELECT * FROM t1 INNER JOIN t2 ON t1.CheckId = t2.CheckId") "join" = true ∧
    "t1" ∈ extractTables (lowerStr "SELECT * FROM t1 INNER JOIN t2 ON t1.CheckId = t2.CheckId") ∧
    determineDatabase [("A.db", ["t1"]), ("B.db", ["t2"])]
      "SELECT * FROM t1 INNER JOIN t2 ON t1.CheckId = t2.CheckId" = some crossDbSentinel ∧
    processStatement [("A.db", ["t1"]), ("B.db", ["t2"])] (fun q => q) "compare"
        "SELECT * FROM t1 INNER JOIN t2 ON t1.CheckId = t2.CheckId" =
      some ((generateSeparateQueries [("A.db", ["t1"]), ("B.db", ["t2"])]
        "SELECT * FROM t1 INNER JOIN t2 ON t1.CheckId = t2.CheckId" "compare").map
          (fun q => (q, q))) ∧
    "SELECT * FROM t1 INNER JOIN t2 ON t1.CheckId = t2.CheckId" ∉
      generateSeparateQueries [("A.db", ["t1"]), ("B.db", ["t2"])]
        "SELECT * FROM t1 INNER JOIN t2 ON t1.CheckId = t2.CheckId" "compare" := by
  have hc := claim1_cross_database_join [("A.db", ["t1"]), ("B.db", ["t2"])]
    (fun q => q) "compare" "SELECT * FROM t1 INNER JOIN t2 ON t1.CheckId = t2.CheckId"
    "t1" "t2" "A.db" "B.db" (by decide) (by decide) (by decide) (by decide) (by decide)
    (by decide)
  exact ⟨by decide, by decide, hc.1, hc.2.1, hc.2.2⟩

/-! ### Claim theorems: the splitter -/

/-- C5 (amended): for a cross-database join whose referenced tables group
into database `A` with table `t1` and database `B` with table `t2` (in that
discovery order), the splitter yields exactly two statements, one per table
in group order, each of the exact form
`SELECT CheckId, Date, Month, Year, DayPart, RevenueCenter, CompanyCode,
SiteCode FROM <table> LIMIT 20` — selecting only the fixed common-column
list, capped at 20 rows, with no text of the original statement preserved.
(The database each statement ultimately runs against is re-resolved by the
router at execution time and can differ from the table's own database when
another indexed table name occurs as a substring of the generated statement;
see the counterexample.) -/
theorem claim5_splitter_two_statements (cat : List (String × List String))
    (q uq A B t1 t2 : String)
    (hg : getTablesByDatabase cat q = [(A, [t1]), (B, [t2])]) :
    generateSeparateQueries cat q uq =
      ["SELECT CheckId, Date, Month, Year, DayPart, RevenueCenter, CompanyCode, SiteCode FROM "
          ++ t1 ++ " LIMIT 20",
       "SELECT CheckId, Date, Month, Year, DayPart, RevenueCenter, CompanyCode, SiteCode FROM "
          ++ t2 ++ " LIMIT 20"] := by
  have hcs : ∀ t : String, commonSelect t =
      "SELECT CheckId, Date, Month, Year, DayPart, RevenueCenter, CompanyCode, SiteCode FROM "
        ++ t ++ " LIMIT 20" := fun _ => rfl
  unfold generateSeparateQueries
  dsimp only
  rw [hg]
  rw [if_neg (by simp)]
  simp [hcs]

/-- C5 counterexample: the tables group as `A.db:[t1]`, `B.db:[t2]` and the
splitter emits the two expected statements, but the first split statement is
routed by the executor to `B.db` (not to `t1`'s database `A.db`) because the
indexed table name `select` of `B.db` occurs as a substring of the generated
statement — so "each targeting its own database" fails as stated. -/
theorem claim5_counterexample :
    getTablesByDatabase [("B.db", ["select", "t2"]), ("A.db", ["t1"])]
        "SELECT * FROM t1 JOIN t2 ON t1.CheckId = t2.CheckId" =
      [("A.db", ["t1"]), ("B.db", ["t2"])] ∧
    generateSeparateQueries [("B.db", ["select", "t2"]), ("A.db", ["t1"])]
        "SELECT * FROM t1 JOIN t2 ON t1.CheckId = t2.CheckId" "q" =
      ["SELECT CheckId, Date, Month, Year, DayPart, RevenueCenter, CompanyCode, SiteCode FROM t1 LIMIT 20",
       "SELECT CheckId, Date, Month, Year, DayPart, RevenueCenter, CompanyCode, SiteCode FROM t2 LIMIT 20"] ∧
    determineDatabase [("B.db", ["select", "t2"]), ("A.db", ["t1"])]
        "SELECT CheckId, Date, Month, Year, DayPart, RevenueCenter, CompanyCode, SiteCode FROM t1 LIMIT 20" =
      some "B.db" ∧ ("B.db" : String) ≠ "A.db" := by
  refine ⟨by decide, by decide, by decide, by decide⟩

theorem claim5_witness :
    getTablesByDatabase [("A.db", ["t1"]), ("B.db", ["t2"])]
        "SELECT * FROM t1 INNER JOIN t2 ON t1.x = t2.x" = [("A.db", ["t1"]), ("B.db", ["t2"])] ∧
    generateSeparateQueries [("A.db", ["t1"]), ("B.db", ["t2"])]
        "SELECT * FROM t1 INNER JOIN t2 ON t1.x = t2.x" "uq" =
      ["SELECT CheckId, Date, Month, Year, DayPart, RevenueCenter, CompanyCode, SiteCode FROM t1 LIMIT 20",
       "SELECT CheckId, Date, Month, Year, DayPart, RevenueCenter, CompanyCode, SiteCode FROM t2 LIMIT 20"] :=
  ⟨by decide,
    claim5_splitter_two_statements [("A.db", ["t1"]), ("B.db", ["t2"])]
      "SELECT * FROM t1 INNER JOIN t2 ON t1.x = t2.x" "uq" "A.db" "B.db" "t1" "t2" (by decide)⟩

/-! ### Claim theorems: the executor -/

/-- C6: once the router has resolved a (cleaned) statement to an existing
database that is not the cross-database sentinel, the executor returns the
distinguished sentinel string `"No results found."` when the query succeeds
with zero rows; returns a textual `"Error executing query: …"` message (never
an exception — `querySqlite` is a total function into `String`) when the
driver fails; and on a non-empty result returns the tab-joined header line
followed by the newline-joined, tab-joined row lines. -/
theorem claim6_executor_results (cat : List (String × List String))
    (fe : String → Bool)
    (drv : String → String → Except String (List String × List (List String)))
    (sql db : String)
    (hdb : determineDatabase cat (cleanSqlQuery sql) = some db)
    (hns : ¬(db = crossDbSentinel)) (hfe : fe db = true) :
    (∀ e, drv db (cleanSqlQuery sql) = .error e →
      querySqlite cat fe drv sql = "Error executing query: " ++ e) ∧
    (∀ cols, drv db (cleanSqlQuery sql) = .ok (cols, []) →
      querySqlite cat fe drv sql = "No results found.") ∧
    (∀ cols r rs, drv db (cleanSqlQuery sql) = .ok (cols, r :: rs) →
      querySqlite cat fe drv sql =
        String.intercalate "\t" cols ++ "\n"
          ++ String.intercalate "\n" ((r :: rs).map (String.intercalate "\t"))) := by
  have hbase : ∀ res, drv db (cleanSqlQuery sql) = res →
      querySqlite cat fe drv sql =
        (match res with
         | .error e => "Error executing query: " ++ e
         | .ok (cols, rows) =>
           if rows.isEmpty then "No results found."
           else String.intercalate "\t" cols ++ "\n"
             ++ String.intercalate "\n" (rows.map (String.intercalate "\t"))) := by
    intro res hres
    unfold querySqlite
    dsimp only
    rw [hdb]
    dsimp only
    rw [if_neg hns, hfe]
    simp only [Bool.not_true, Bool.false_eq_true, if_false]
    rw [hres]
  refine ⟨fun e he => ?_, fun cols hc => ?_, fun cols r rs hc => ?_⟩
  · rw [hbase _ he]
  · rw [hbase _ hc]
    rfl
  · rw [hbase _ hc]
    simp

theorem claim6_witness :
    querySqlite [("A.db", ["t"])] (fun _ => true) (fun _ _ => .error "boom")
      "SELECT * FROM t" = "Error executing query: boom" ∧
    querySqlite [("A.db", ["t"])] (fun _ => true) (fun _ _ => .ok (["c"], []))
      "SELECT * FROM t" = "No results found." ∧
    querySqlite [("A.db", ["t"])] (fun _ => true)
      (fun _ _ => .ok (["c1", "c2"], [["v1", "v2"], ["w1", "w2"]]))
      "SELECT * FROM t" = "c1\tc2\nv1\tv2\nw1\tw2" := by
  refine ⟨?_, ?_, ?_⟩
  · exact (claim6_executor_results [("A.db", ["t"])] (fun _ => true)
      (fun _ _ => .error "boom") "SELECT * FROM t" "A.db" (by decide) (by decide)
      rfl).1 "boom" rfl
  · exact (claim6_executor_results [("A.db", ["t"])] (fun _ => true)
      (fun _ _ => .ok (["c"], [])) "SELECT * FROM t" "A.db" (by decide) (by decide)
      rfl).2.1 ["c"] rfl
  · have h := (claim6_executor_results [("A.db", ["t"])] (fun _ => true)
      (fun _ _ => .ok (["c1", "c2"], [["v1", "v2"], ["w1", "w2"]])) "SELECT * FROM t"
      "A.db" (by decide) (by decide) rfl).2.2 ["c1", "c2"] ["v1", "v2"] [["w1", "w2"]] rfl
    rw [h]
    decide

/-! ### Claim theorems: the normalizer -/

theorem map_mk_data (l : List String) : l.map (fun s => String.mk s.data) = l := by
  induction l with
  | nil => rfl
  | cons s ss ih => simp only [List.map_cons, ih]

theorem processResult_tab (headers : List String) (rows : List (List String))
    (h2 : 2 ≤ headers.length) (hr : rows ≠ [])
    (hhc : ∀ t ∈ headers, tokenClean t)
    (hrc : ∀ r ∈ rows, ∀ t ∈ r, tokenClean t)
    (hrne : ∀ r ∈ rows, r ≠ [])
    (hstrip : pyStrip (tabInput headers rows) = tabInput headers rows)
    (hmk : strContains (tabInput headers rows) crossDbMarker = false) :
    processResult (tabInput headers rows) =
      (rows.map (fun r => DataItem.record (buildRow [] headers r)), []) := by
  obtain ⟨a, b, hs', hhd⟩ : ∃ a b t, headers = a :: b :: t := by
    match headers, h2 with
    | a :: b :: t, _ => exact ⟨a, b, t, rfl⟩
  have hdata : (tabInput headers rows).data =
      joinCh '\n' (joinCh '\t' (headers.map String.data)
        :: rows.map (fun r => joinCh '\t' (r.map String.data))) := rfl
  have hTab : strContains (tabInput headers rows) "\t" = true := by
    show listSub "\t".data (tabInput headers rows).data = true
    rw [show "\t".data = ['\t'] from rfl, listSub_single, hdata]
    refine mem_joinCh_head '\n' '\t' _ _ ?_
    rw [hhd]
    exact sep_mem_joinCh '\t' a.data b.data (hs'.map String.data)
  have hNoNlH : '\n' ∉ joinCh '\t' (headers.map String.data) := by
    intro hcm
    rcases mem_joinCh '\t' (headers.map String.data) '\n' hcm with h | ⟨l, hl, hcl⟩
    · exact absurd h (by decide)
    · obtain ⟨t, htm, rfl⟩ := List.mem_map.1 hl
      exact (hhc t htm).2 hcl
  have hNoNlR : ∀ r ∈ rows, '\n' ∉ joinCh '\t' (r.map String.data) := by
    intro r hrm hcm
    rcases mem_joinCh '\t' (r.map String.data) '\n' hcm with h | ⟨l, hl, hcl⟩
    · exact absurd h (by decide)
    · obtain ⟨t, htm, rfl⟩ := List.mem_map.1 hl
      exact (hrc r hrm t htm).2 hcl
  have hsplit : splitLines (pyStrip (tabInput headers rows)) =
      (joinCh '\t' (headers.map String.data)
        :: rows.map (fun r => joinCh '\t' (r.map String.data))).map String.mk := by
    rw [hstrip]
    show (splitCh '\n' (tabInput headers rows).data).map String.mk = _
    rw [hdata, splitCh_joinCh '\n' _ (by simp)]
    intro l hl
    rcases List.mem_cons.1 hl with rfl | hl
    · exact hNoNlH
    · obtain ⟨r, hrm, rfl⟩ := List.mem_map.1 hl
      exact hNoNlR r hrm
  have hHdrs : splitTabs (String.mk (joinCh '\t' (headers.map String.data))) = headers := by
    show (splitCh '\t' (joinCh '\t' (headers.map String.data))).map String.mk = headers
    rw [splitCh_joinCh '\t' _ (by simp [hhd]) (by
      intro l hl
      obtain ⟨t, htm, rfl⟩ := List.mem_map.1 hl
      exact (hhc t htm).1), List.map_map]
    exact map_mk_data headers
  have hRow : ∀ r ∈ rows,
      splitTabs (String.mk (joinCh '\t' (r.map String.data))) = r := by
    intro r hrm
    show (splitCh '\t' (joinCh '\t' (r.map String.data))).map String.mk = r
    rw [splitCh_joinCh '\t' _ (by simp [hrne r hrm]) (by
      intro l hl
      obtain ⟨t, htm, rfl⟩ := List.mem_map.1 hl
      exact (hrc r hrm t htm).1), List.map_map]
    exact map_mk_data r
  unfold processResult
  rw [hmk]
  simp only [Bool.false_eq_true, if_false]
  rw [hTab]
  simp only [if_true]
  rw [hsplit]
  simp only [List.map_cons]
  rw [if_pos (by
    simp only [List.length_cons, List.length_map]
    have hpos := List.length_pos.2 hr
    omega)]
  rw [hHdrs]
  simp only [List.map_map]
  refine Prod.ext ?_ rfl
  show rows.map (fun r =>
    DataItem.record (buildRow [] headers
      (splitTabs (String.mk (joinCh '\t' (r.map String.data)))))) = _
  exact List.map_congr_left (fun r hrm => by rw [hRow r hrm])

/-- C3 (amended): for a tab-delimited input with `H ≥ 2` header columns whose
trimmed header tokens are pairwise distinct, `R ≥ 1` data lines each of
exactly `H` tab-separated fields, and not containing the cross-database
marker substring, `normalize` produces exactly `R` records in original row
order, each with exactly `H` keys equal to the whitespace-trimmed header
tokens (zipped positionally with the row's fields), and an empty error
list. -/
theorem claim3_tab_normalization (headers : List String) (rows : List (List String))
    (h2 : 2 ≤ headers.length) (hr : rows ≠ [])
    (hhc : ∀ t ∈ headers, tokenClean t)
    (hrc : ∀ r ∈ rows, ∀ t ∈ r, tokenClean t)
    (hlen : ∀ r ∈ rows, r.length = headers.length)
    (hnodup : (headers.map pyStrip).Nodup)
    (hstrip : pyStrip (tabInput headers rows) = tabInput headers rows)
    (hmk : strContains (tabInput headers rows) crossDbMarker = false) :
    processResult (tabInput headers rows) =
      (rows.map (fun r => DataItem.record ((headers.map pyStrip).zip r)), []) := by
  have hrne : ∀ r ∈ rows, r ≠ [] := by
    intro r hrm hnil
    have hl := hlen r hrm
    rw [hnil] at hl
    simp at hl
    omega
  rw [processResult_tab headers rows h2 hr hhc hrc hrne hstrip hmk]
  refine Prod.ext ?_ rfl
  refine List.map_congr_left (fun r hrm => ?_)
  rw [buildRow_zip headers r [] (by simp) hnodup, hlen r hrm]
  simp

/-- C3 counterexample: the duplicated header token `a` (H = 2 columns)
collapses to a single dict key — the produced record has one key, not two,
so "exactly H keys" fails for duplicate trimmed headers. -/
theorem claim3_counterexample :
    (processResult "a\ta\n1\t2").1 = [DataItem.record [("a", "2")]] ∧
    (processResult "a\ta\n1\t2").1 ≠ [DataItem.record [("a", "1"), ("a", "2")]] :=
  ⟨by decide, by decide⟩

theorem claim3_witness :
    processResult (tabInput ["CheckId", "Date"] [["K-1", "01-01-2024"]]) =
      ([DataItem.record [("CheckId", "K-1"), ("Date", "01-01-2024")]], []) := by
  rw [claim3_tab_normalization ["CheckId", "Date"] [["K-1", "01-01-2024"]]
    (by decide) (by decide) (by decide) (by decide) (by decide) (by decide)
    (by decide) (by decide)]
  decide

/-- C4 (amended): provided the input does not contain the cross-database
marker substring, a tab-delimited input whose single data row has fewer
fields than the `H ≥ 2` headers still yields one record in which every
trimmed header occurs as a key, with the missing trailing positions bound to
the empty string rather than the key being absent (shown exactly when the
trimmed headers are pairwise distinct); no exception is raised —
`processResult` is a total function. -/
theorem claim4_short_row_padding (headers : List String) (r : List String)
    (h2 : 2 ≤ headers.length) (hrne : r ≠ []) (hshort : r.length < headers.length)
    (hhc : ∀ t ∈ headers, tokenClean t) (hrc : ∀ t ∈ r, tokenClean t)
    (hstrip : pyStrip (tabInput headers [r]) = tabInput headers [r])
    (hmk : strContains (tabInput headers [r]) crossDbMarker = false) :
    ∃ fields,
      processResult (tabInput headers [r]) = ([DataItem.record fields], []) ∧
      (∀ hd ∈ headers, pyStrip hd ∈ fields.map Prod.fst) ∧
      ((headers.map pyStrip).Nodup →
        fields = (headers.map pyStrip).zip
          (r ++ List.replicate (headers.length - r.length) "")) := by
  refine ⟨buildRow [] headers r, ?_, ?_, ?_⟩
  · rw [processResult_tab headers [r] h2 (by simp) hhc (by simpa using hrc)
      (by simpa using hrne) hstrip hmk]
    simp
  · intro hd hmem
    exact buildRow_key_mem headers r [] hd hmem
  · intro hnd
    rw [buildRow_zip headers r [] (by simp) hnd]
    simp

/-- C4 counterexample: when the (short) data row is the cross-database marker
string, the whole input is routed to the error list before the tab branch is
reached — no record with the header keys is produced, so the claim fails as
universally stated. -/
theorem claim4_counterexample :
    processResult "a\tb\nCross-database JOIN detected" =
      ([], ["a\tb\nCross-database JOIN detected"]) ∧
    ∀ fields, processResult "a\tb\nCross-database JOIN detected" ≠
      ([DataItem.record fields], []) := by
  refine ⟨by decide, ?_⟩
  intro fields h
  rw [(by decide : processResult "a\tb\nCross-database JOIN detected" =
    ([], ["a\tb\nCross-database JOIN detected"]))] at h
  simp [Prod.ext_iff] at h

theorem claim4_witness :
    ∃ fields,
      processResult (tabInput ["a", "b", "c"] [["1"]]) = ([DataItem.record fields], []) ∧
      (∀ hd ∈ ["a", "b", "c"], pyStrip hd ∈ fields.map Prod.fst) ∧
      (((["a", "b", "c"] : List String).map pyStrip).Nodup →
        fields = ((["a", "b", "c"] : List String).map pyStrip).zip
          (["1"] ++ List.replicate ((["a", "b", "c"] : List String).length -
            (["1"] : List String).length) "")) :=
  claim4_short_row_padding ["a", "b", "c"] ["1"] (by decide) (by decide) (by decide)
    (by decide) (by decide) (by decide) (by decide)

/-- C7 (amended): a single-line input (no newline, no tab) containing one of
the error keywords case-insensitively is appended to the error list and
yields no data record (in particular the literal `"No results found."`);
a single-line input matching none of the keywords — provided it also does
not contain the cross-database marker substring, which is intercepted
first — becomes the one-key record `{"Result": value}`. -/
theorem claim7_single_line_classification :
    (∀ s : String, strContains s "\n" = false → strContains s "\t" = false →
      errorKeywords.any (fun k => strContains (lowerStr s) k) = true →
      processResult s = ([], [s])) ∧
    processResult "No results found." = ([], ["No results found."]) ∧
    (∀ s : String, strContains s "\n" = false → strContains s "\t" = false →
      errorKeywords.any (fun k => strContains (lowerStr s) k) = false →
      strContains s crossDbMarker = false →
      processResult s = ([DataItem.record [("Result", s)]], [])) := by
  refine ⟨?_, by decide, ?_⟩
  · intro s hnl htab hkw
    unfold processResult
    by_cases hmk : strContains s crossDbMarker = true
    · rw [hmk]
      simp
    · rw [Bool.not_eq_true] at hmk
      rw [hmk]
      simp only [Bool.false_eq_true, if_false]
      rw [htab]
      simp only [Bool.false_eq_true, if_false]
      rw [hnl]
      simp only [Bool.false_eq_true, if_false]
      rw [hkw]
      simp
  · intro s hnl htab hkw hmk
    unfold processResult
    rw [hmk]
    simp only [Bool.false_eq_true, if_false]
    rw [htab]
    simp only [Bool.false_eq_true, if_false]
    rw [hnl]
    simp only [Bool.false_eq_true, if_false]
    rw [hkw]
    simp

/-- C7 counterexample: the single-line string `"Cross-database JOIN
detected"` matches none of the error keywords, yet it is routed to the error
list by the marker branch — never wrapped as `{"Result": value}` — so the
claim's non-matching clause fails as stated. -/
theorem claim7_counterexample :
    errorKeywords.any (fun k =>
      strContains (lowerStr "Cross-database JOIN detected") k) = false ∧
    processResult "Cross-database JOIN detected" =
      ([], ["Cross-database JOIN detected"]) ∧
    processResult "Cross-database JOIN detected" ≠
      ([DataItem.record [("Result", "Cross-database JOIN detected")]], []) :=
  ⟨by decide, by decide, by decide⟩

theorem claim7_witness :
    processResult "error near token" = ([], ["error near token"]) ∧
    processResult "42 rows" = ([DataItem.record [("Result", "42 rows")]], []) :=
  ⟨claim7_single_line_classification.1 "error near token" (by decide) (by decide)
      (by decide),
    claim7_single_line_classification.2.2 "42 rows" (by decide) (by decide)
      (by decide) (by decide)⟩

/-! ### Lemmas: strip and two-line splits -/

theorem dropWhile_head_false (p : Char → Bool) :
    ∀ (l : List Char) (c : Char) (r : List Char),
      l.dropWhile p = c :: r → p c = false
  | [], c, r, h => by simp at h
  | x :: xs, c, r, h => by
    by_cases hx : p x = true
    · rw [List.dropWhile_cons_of_pos hx] at h
      exact dropWhile_head_false p xs c r h
    · rw [List.dropWhile_cons_of_neg hx] at h
      injection h with h1 h2
      rw [← h1]
      exact Bool.not_eq_true _ ▸ hx

theorem dropWhile_suffix_ex (p : Char → Bool) :
    ∀ l : List Char, ∃ pre, l = pre ++ l.dropWhile p
  | [] => ⟨[], rfl⟩
  | x :: xs => by
    by_cases hx : p x = true
    · obtain ⟨pre, hp⟩ := dropWhile_suffix_ex p xs
      exact ⟨x :: pre, by rw [List.dropWhile_cons_of_pos hx, List.cons_append, ← hp]⟩
    · exact ⟨[], by rw [List.dropWhile_cons_of_neg hx]; rfl⟩

theorem mem_dropWhile_of_false (p : Char → Bool) :
    ∀ (l : List Char) (x : Char), x ∈ l → p x = false → x ∈ l.dropWhile p
  | [], x, hx, _ => by simp at hx
  | y :: ys, x, hx, hpx => by
    by_cases hy : p y = true
    · rw [List.dropWhile_cons_of_pos hy]
      rcases List.mem_cons.1 hx with rfl | hx
      · rw [hy] at hpx; exact absurd hpx (by simp)
      · exact mem_dropWhile_of_false p ys x hx hpx
    · rw [List.dropWhile_cons_of_neg hy]
      exact hx

theorem stripCh_ne_nil_of_mem (l : List Char) (x : Char)
    (hx : x ∈ l) (hpx : isSpaceCh x = false) : stripCh l ≠ [] := by
  unfold stripCh
  have h1 : x ∈ l.dropWhile isSpaceCh := mem_dropWhile_of_false isSpaceCh l x hx hpx
  have h2 : x ∈ (l.dropWhile isSpaceCh).reverse := List.mem_reverse.2 h1
  have h3 : x ∈ (l.dropWhile isSpaceCh).reverse.dropWhile isSpaceCh :=
    mem_dropWhile_of_false isSpaceCh _ x h2 hpx
  intro hnil
  rw [List.reverse_eq_nil_iff] at hnil
  rw [hnil] at h3
  simp at h3

theorem stripCh_head_not_space (l : List Char) (c : Char) (r : List Char)
    (h : stripCh l = c :: r) : isSpaceCh c = false := by
  unfold stripCh at h
  obtain ⟨pre, hp⟩ :=
    dropWhile_suffix_ex isSpaceCh (l.dropWhile isSpaceCh).reverse
  have hd : l.dropWhile isSpaceCh =
      ((l.dropWhile isSpaceCh).reverse.dropWhile isSpaceCh).reverse ++ pre.reverse := by
    have := congrArg List.reverse hp
    rw [List.reverse_reverse, List.reverse_append] at this
    exact this
  rw [h] at hd
  exact dropWhile_head_false isSpaceCh l c (r ++ pre.reverse)
    (by rw [hd, List.cons_append])

theorem stripCh_last_not_space (l : List Char) (x : List Char) (c : Char)
    (h : stripCh l = x ++ [c]) : isSpaceCh c = false := by
  unfold stripCh at h
  have he : (l.dropWhile isSpaceCh).reverse.dropWhile isSpaceCh = c :: x.reverse := by
    have := congrArg List.reverse h
    rw [List.reverse_reverse, List.reverse_append] at this
    simpa using this
  exact dropWhile_head_false isSpaceCh _ c x.reverse he

theorem splitCh_single (sep : Char) :
    ∀ (l y : List Char), splitCh sep l = [y] → l = y ∧ sep ∉ y
  | [], y, h => by
    rw [splitCh] at h
    injection h with h1 h2
    exact ⟨h1, by rw [← h1]; simp⟩
  | c :: cs, y, h => by
    by_cases hc : c = sep
    · rw [splitCh, if_pos hc] at h
      injection h with h1 h2
      exact absurd h2 (splitCh_ne_nil sep cs)
    · rw [splitCh, if_neg hc] at h
      cases hs : splitCh sep cs with
      | nil => exact absurd hs (splitCh_ne_nil sep cs)
      | cons g gs =>
        rw [hs] at h
        injection h with h1 h2
        obtain ⟨hcs, hnm⟩ := splitCh_single sep cs g (by rw [hs, h2])
        constructor
        · rw [← h1, ← hcs]
        · rw [← h1]
          intro hm
          rcases List.mem_cons.1 hm with he | hm
          · exact hc he.symm
          · exact hnm hm

theorem splitCh_pair (sep : Char) :
    ∀ (l x y : List Char), splitCh sep l = [x, y] →
      l = x ++ sep :: y ∧ sep ∉ x ∧ sep ∉ y
  | [], x, y, h => by rw [splitCh] at h; injection h with h1 h2; simp at h2
  | c :: cs, x, y, h => by
    by_cases hc : c = sep
    · rw [splitCh, if_pos hc] at h
      injection h with h1 h2
      obtain ⟨hcs, hny⟩ := splitCh_single sep cs y h2
      refine ⟨?_, ?_, hny⟩
      · rw [← h1, hc, hcs]; rfl
      · rw [← h1]; simp
    · rw [splitCh, if_neg hc] at h
      cases hs : splitCh sep cs with
      | nil => exact absurd hs (splitCh_ne_nil sep cs)
      | cons g gs =>
        rw [hs] at h
        injection h with h1 h2
        obtain ⟨hcs, hng, hny⟩ := splitCh_pair sep cs g y (by rw [hs, h2])
        refine ⟨?_, ?_, hny⟩
        · rw [← h1, hcs]; rfl
        · rw [← h1]
          intro hm
          rcases List.mem_cons.1 hm with he | hm
          · exact hc he.symm
          · exact hng hm

/-- After the global strip, a two-line split always has a non-empty trimmed
header and a non-empty trimmed value: the skip branch for empty header/value
is unreachable. -/
theorem twoLine_parts_nonempty (s a b : String)
    (h : splitLines (pyStrip s) = [a, b]) :
    ¬(pyStrip a = "") ∧ ¬(pyStrip b = "") := by
  have hsp : splitCh '\n' (stripCh s.data) = [a.data, b.data] := by
    have h' : (splitCh '\n' (stripCh s.data)).map String.mk = [a, b] := h
    cases hq : splitCh '\n' (stripCh s.data) with
    | nil => rw [hq] at h'; simp at h'
    | cons g gs =>
      cases gs with
      | nil => rw [hq] at h'; simp at h'
      | cons g2 gs2 =>
        cases gs2 with
        | nil =>
          rw [hq] at h'
          simp only [List.map_cons, List.map_nil, List.cons.injEq, and_true] at h'
          rw [← h'.1, ← h'.2]
        | cons g3 gs3 => rw [hq] at h'; simp at h'
  obtain ⟨heq, hna, hnb⟩ := splitCh_pair '\n' (stripCh s.data) a.data b.data hsp
  constructor
  · -- `a` begins with the stripped string's first character, which is not a space
    cases hadata : a.data with
    | nil =>
      exfalso
      rw [hadata] at heq
      have := stripCh_head_not_space s.data '\n' b.data (by simpa using heq)
      exact absurd this (by decide)
    | cons c r =>
      have hc : isSpaceCh c = false := by
        refine stripCh_head_not_space s.data c (r ++ '\n' :: b.data) ?_
        rw [heq, hadata, List.cons_append]
      intro hemp
      have : stripCh a.data ≠ [] :=
        stripCh_ne_nil_of_mem a.data c (by rw [hadata]; simp) hc
      exact this (congrArg String.data hemp)
  · cases hbdata : b.data.reverse with
    | nil =>
      exfalso
      have hb : b.data = [] := by
        have := congrArg List.reverse hbdata
        simpa using this
      rw [hb] at heq
      have := stripCh_last_not_space s.data a.data '\n' heq
      exact absurd this (by decide)
    | cons c r =>
      have hb : b.data = r.reverse ++ [c] := by
        have := congrArg List.reverse hbdata
        simpa using this
      have hc : isSpaceCh c = false := by
        refine stripCh_last_not_space s.data (a.data ++ '\n' :: r.reverse) c ?_
        rw [heq, hb]
        simp
      intro hemp
      have : stripCh b.data ≠ [] :=
        stripCh_ne_nil_of_mem b.data c (by rw [hb]; simp) hc
      exact this (congrArg String.data hemp)

/-- C10 (amended): provided the string does not contain the cross-database
marker substring (which is intercepted first), an executor result containing
a newline but no tab whose whitespace-stripped content is a single line is
appended to the data list as the bare unkeyed raw string itself — neither
wrapped into `{"Result": …}` nor tested against the error-keyword
vocabulary.  A two-line split can never have a header or value that strips
to the empty string (the input was already globally stripped), so the code's
silent-skip branch is unreachable: a two-line split always yields the one
record `{trimmed header: trimmed value}`. -/
theorem claim10_newline_no_tab (s a b : String)
    (hmk : strContains s crossDbMarker = false)
    (htab : strContains s "\t" = false)
    (hnl : strContains s "\n" = true) :
    ((splitLines (pyStrip s)).length = 1 → processResult s = ([DataItem.raw s], [])) ∧
    (splitLines (pyStrip s) = [a, b] →
      ¬(pyStrip a = "") ∧ ¬(pyStrip b = "") ∧
      processResult s = ([DataItem.record [(pyStrip a, pyStrip b)]], [])) := by
  constructor
  · intro hone
    unfold processResult
    rw [hmk]
    simp only [Bool.false_eq_true, if_false]
    rw [htab]
    simp only [Bool.false_eq_true, if_false]
    rw [hnl]
    simp only [if_true]
    obtain ⟨x, hx⟩ : ∃ x, splitLines (pyStrip s) = [x] := by
      match hsp : splitLines (pyStrip s), hone with
      | [x], _ => exact ⟨x, rfl⟩
    rw [hx]
    simp
  · intro htwo
    obtain ⟨hna, hnb⟩ := twoLine_parts_nonempty s a b htwo
    refine ⟨hna, hnb, ?_⟩
    unfold processResult
    rw [hmk]
    simp only [Bool.false_eq_true, if_false]
    rw [htab]
    simp only [Bool.false_eq_true, if_false]
    rw [hnl]
    simp only [if_true]
    rw [htwo]
    simp [hna, hnb]

/-- C10 counterexample: `"Cross-database JOIN detected\n"` (newline, no tab,
single line once stripped) is routed to the error list by the marker branch
instead of being appended as a bare raw value; and the two-line input
`"Revenue\n "`, whose second line strips to the empty string, is not
silently dropped — the global strip reduces it to a single line and it is
appended to the data list as the bare raw string. -/
theorem claim10_counterexample :
    processResult "Cross-database JOIN detected\n" =
      ([], ["Cross-database JOIN detected\n"]) ∧
    processResult "Revenue\n " = ([DataItem.raw "Revenue\n "], []) ∧
    processResult "Revenue\n " ≠ ([], []) :=
  ⟨by decide, by decide, by decide⟩

theorem claim10_witness :
    processResult "Error executing query: boom\n" =
      ([DataItem.raw "Error executing query: boom\n"], []) ∧
    (¬(pyStrip "Revenue" = "") ∧ ¬(pyStrip "1000" = "") ∧
      processResult "Revenue\n1000" =
        ([DataItem.record [(pyStrip "Revenue", pyStrip "1000")]], [])) :=
  ⟨(claim10_newline_no_tab "Error executing query: boom\n" "" ""
      (by decide) (by decide) (by decide)).1 (by decide),
    (claim10_newline_no_tab "Revenue\n1000" "Revenue" "1000"
      (by decide) (by decide) (by decide)).2 (by decide)⟩

/-! ### Claim theorems: batch extraction -/

/-- C8 (amended): the batch is primarily produced by the regex extraction
`SELECT.*?LIMIT\s+\d+` (case-insensitive, dot-matches-newline) over the
cleaned response, each match stripped with `;` appended; only when that
regex finds no match is the batch produced by splitting the cleaned text on
`;` and discarding blank fragments, comment-only fragments (leading `--`),
and fragments not containing a SELECT — with no replacement query
synthesized for a dropped fragment. -/
theorem claim8_batch_extraction (raw : String) :
    (findallSelectLimit (cleanupRaw raw) = [] →
      extractSqlStatements raw = specSplitOnSemicolons (cleanupRaw raw)) ∧
    (∀ m ms, findallSelectLimit (cleanupRaw raw) = m :: ms →
      extractSqlStatements raw = (m :: ms).map (fun x => pyStrip x ++ ";")) := by
  constructor
  · intro hnone
    unfold extractSqlStatements
    dsimp only
    rw [hnone]
    simp only [List.isEmpty_nil, if_true]
    rfl
  · intro m ms hsome
    unfold extractSqlStatements
    dsimp only
    rw [hsome]
    simp

/-- C8 counterexample: for the raw response `"SELECT a FROM t LIMIT 20"` the
executed batch is the regex match with `;` appended, which differs from the
`;`-splitting described by the claim — so the batch is not produced by
splitting the raw text on `;` in general. -/
theorem claim8_counterexample :
    extractSqlStatements "SELECT a FROM t LIMIT 20" = ["SELECT a FROM t LIMIT 20;"] ∧
    specSplitOnSemicolons "SELECT a FROM t LIMIT 20" = ["SELECT a FROM t LIMIT 20"] ∧
    extractSqlStatements "SELECT a FROM t LIMIT 20" ≠
      specSplitOnSemicolons "SELECT a FROM t LIMIT 20" :=
  ⟨by decide, by decide, by decide⟩

theorem claim8_witness :
    extractSqlStatements "To be;-- note;SELECT 1" =
      specSplitOnSemicolons (cleanupRaw "To be;-- note;SELECT 1") ∧
    specSplitOnSemicolons (cleanupRaw "To be;-- note;SELECT 1") = ["SELECT 1"] ∧
    extractSqlStatements "SELECT a FROM t LIMIT 3" = ["SELECT a FROM t LIMIT 3;"] := by
  refine ⟨(claim8_batch_extraction "To be;-- note;SELECT 1").1 (by decide), by decide, ?_⟩
  have h := (claim8_batch_extraction "SELECT a FROM t LIMIT 3").2
    "SELECT a FROM t LIMIT 3" [] (by decide)
  rw [h]
  decide
